import Mathlib

/-!
Verification development for the smart-turn-go repository.

This file shallowly embeds (over exact real arithmetic) the Whisper-style
log-mel feature extractor of whisper_mel.go, the configuration validator of
the same file, and the model/runtime resolver of
examples/utility/resolver/download.go plus the bundled-library scanner, and
proves or refutes the frozen behavioural claims about them.

Floating-point arithmetic of the source is modelled by the real numbers;
machine floats appear nowhere, so every equality below is exact.
-/

namespace SmartTurn

/-! ## Feature extractor: embedding of whisper_mel.go

Go constants: whisperNFFT = 400, whisperHop = 160, whisperNMels = 80,
whisper8sSamples = 128000, whisper8sFrames = 800, nBins = 400/2+1 = 201. -/

/-- Hann window coefficient, from the source loop
window[i] = 0.5 * (1 - cos(2*pi*i/400)). -/
noncomputable def hannWindow (i : ℕ) : ℝ :=
  0.5 * (1 - Real.cos (2 * Real.pi * i / 400))

/-- Real part of the k-th DFT coefficient computed by realFFTPower:
re += buf[i*2] * cos(angle) with angle = -2*pi*k*i/n.  The interleaved
imaginary inputs buf[i*2+1] are always zero and are never read by the
source, so buf here holds the real parts only. -/
noncomputable def fftRe (buf : ℕ → ℝ) (n k : ℕ) : ℝ :=
  ∑ i in Finset.range n, buf i * Real.cos (-2 * Real.pi * k * i / n)

/-- Imaginary part of the k-th DFT coefficient computed by realFFTPower:
im += buf[i*2] * sin(angle) with angle = -2*pi*k*i/n. -/
noncomputable def fftIm (buf : ℕ → ℝ) (n k : ℕ) : ℝ :=
  ∑ i in Finset.range n, buf i * Real.sin (-2 * Real.pi * k * i / n)

/-- power[k] = (re*re + im*im) / (n*n), from realFFTPower. -/
noncomputable def realFFTPower (buf : ℕ → ℝ) (n k : ℕ) : ℝ :=
  (fftRe buf n k * fftRe buf n k + fftIm buf n k * fftIm buf n k) / (n * n)

/-- hzToMel(hz) = 2595 * log10(1 + hz/700). -/
noncomputable def hzToMel (hz : ℝ) : ℝ := 2595 * Real.logb 10 (1 + hz / 700)

/-- melToHz(mel) = 700 * (10^(mel/2595) - 1). -/
noncomputable def melToHz (mel : ℝ) : ℝ := 700 * ((10 : ℝ) ^ (mel / 2595) - 1)

/-- melPoints[i] = lowMel + (highMel-lowMel)*i/(nMels+1) with lowFreq = 0,
highFreq = 8000, nMels = 80 (from getMelFilterbank). -/
noncomputable def melPoint (i : ℕ) : ℝ :=
  hzToMel 0 + (hzToMel 8000 - hzToMel 0) * i / 81

/-- hzPoints[i] = melToHz(melPoints[i]). -/
noncomputable def hzPoint (i : ℕ) : ℝ := melToHz (melPoint i)

/-- binFreq[k] = k * sampleRate / (2*(nBins-1)) = k * 16000 / 400. -/
noncomputable def binFreq (k : ℕ) : ℝ := k * 16000 / (2 * 200)

/-- filters[m*nBins+k] from getMelFilterbank: the triangle for band m has
feet hzPoints[m], hzPoints[m+2] and peak hzPoints[m+1].  The process-wide
cache of the source is value-irrelevant and not modelled. -/
noncomputable def melFilter (m k : ℕ) : ℝ :=
  if binFreq k ≥ hzPoint m ∧ binFreq k ≤ hzPoint (m + 1) then
    (binFreq k - hzPoint m) / (hzPoint (m + 1) - hzPoint m)
  else if binFreq k > hzPoint (m + 1) ∧ binFreq k ≤ hzPoint (m + 2) then
    (hzPoint (m + 2) - binFreq k) / (hzPoint (m + 2) - hzPoint (m + 1))
  else 0

/-- fftBuf[i*2] = padded[offset+i] * window[i] with offset = t*160
(computeWhisperMelFromPadded's frame loop). -/
noncomputable def frameBuf (padded : List ℝ) (t i : ℕ) : ℝ :=
  padded.getD (t * 160 + i) 0 * hannWindow i

/-- v = sum over the 201 bins of filters[m*nBins+k] * power[k]. -/
noncomputable def melVal (padded : List ℝ) (m t : ℕ) : ℝ :=
  ∑ k in Finset.range 201, melFilter m k * realFFTPower (frameBuf padded t) 400 k

/-- mel[m*800+t] before dynamic-range compression.  The source loop breaks
as soon as offset+400 exceeds len(padded); since the offsets t*160 grow
monotonically this leaves exactly the cells with t*160+400 ≤ len(padded)
written (log10 of the clamped filter output; the clamp
if v < 1e-10 then v = 1e-10 is max v 1e-10), the rest keeping their zero
initialisation. -/
noncomputable def melRawEntry (padded : List ℝ) (m t : ℕ) : ℝ :=
  if t * 160 + 400 ≤ padded.length then
    Real.logb 10 (max (melVal padded m t) 1e-10)
  else 0

/-- maxVal: starts at -1e30, then for each of the 64000 cells (index
idx = m*800+t, i.e. m = idx/800, t = idx%800) takes the running maximum,
exactly as the source loop (if mel[i] > maxVal then maxVal = mel[i]). -/
noncomputable def melMaxVal (padded : List ℝ) : ℝ :=
  (List.range 64000).foldl
    (fun acc idx => max acc (melRawEntry padded (idx / 800) (idx % 800))) (-1e30)

/-- Final matrix cell: clamp to floor = maxVal - 8 (if mel[i] < floor then
mel[i] = floor, i.e. max _ floor) and rescale as (v+4)/4. -/
noncomputable def melOutEntry (padded : List ℝ) (m t : ℕ) : ℝ :=
  (max (melRawEntry padded m t) (melMaxVal padded - 8) + 4) / 4

/-- computeWhisperMelFromPadded: nil (= []) unless len(padded) == 128000,
otherwise the row-major 80 x 800 matrix, cell idx = m*800+t. -/
noncomputable def computeWhisperMelFromPadded (padded : List ℝ) : List ℝ :=
  if padded.length = 128000 then
    (List.range 64000).map (fun idx => melOutEntry padded (idx / 800) (idx % 800))
  else []

/-- The truncation step of computeWhisperMel: keep the last 8 seconds,
if len(audio) > 128000 then audio = audio[len-128000:]. -/
noncomputable def truncated (audio : List ℝ) : List ℝ :=
  if audio.length > 128000 then audio.drop (audio.length - 128000) else audio

/-- mean: accumulate all samples then divide by the length. -/
noncomputable def audioMean (a : List ℝ) : ℝ := a.sum / a.length

/-- variance: accumulate d*d with d = v - mean, then divide by the length
(population variance). -/
noncomputable def audioVariance (a : List ℝ) : ℝ :=
  (a.map (fun v => (v - audioMean a) * (v - audioMean a))).sum / a.length

/-- if variance < 1e-7 then variance = 1e-7. -/
noncomputable def clampedVariance (a : List ℝ) : ℝ :=
  if audioVariance a < 1e-7 then 1e-7 else audioVariance a

/-- scale = 1.0 / sqrt(variance). -/
noncomputable def audioScale (a : List ℝ) : ℝ := 1 / Real.sqrt (clampedVariance a)

/-- The padded buffer computeWhisperMel hands to
computeWhisperMelFromPadded: a 128000-cell buffer of zeros into which the
normalised samples (audio[i] - mean) * scale are copied, right-aligned at
offset 128000 - len(audio) when the (truncated) audio is shorter than
128000 samples. -/
noncomputable def normalizedPadded (audio : List ℝ) : List ℝ :=
  let a := truncated audio
  if a.length ≥ 128000 then
    (List.range 128000).map (fun i => (a.getD i 0 - audioMean a) * audioScale a)
  else
    (List.range 128000).map (fun i =>
      if i < 128000 - a.length then 0
      else (a.getD (i - (128000 - a.length)) 0 - audioMean a) * audioScale a)

/-- computeWhisperMel: nil (= []) for empty input, otherwise normalise,
pad and run the padded-stage computation. -/
noncomputable def computeWhisperMel (audio : List ℝ) : List ℝ :=
  if audio.length = 0 then []
  else computeWhisperMelFromPadded (normalizedPadded audio)

/-- Mathematical maximum of a list of reals (its head for singletons);
used to state range properties of output matrices. -/
noncomputable def listMax (l : List ℝ) : ℝ := l.foldl max (l.headD 0)

/-- Mathematical minimum of a list of reals. -/
noncomputable def listMin (l : List ℝ) : ℝ := l.foldl min (l.headD 0)

/-! ## C8 and C9: degenerate inputs -/

/-- C8: the feature extractor applied to a zero-length input returns the
empty result (Go nil), and — being a total function to lists — cannot fail. -/
theorem c8_empty_input_empty_output : computeWhisperMel [] = [] := by
  simp [computeWhisperMel]

/-- C9: for every buffer whose length is not exactly 128000 samples, the
padded-stage computation returns the empty (nil) result; its return type
carries no error value, so nothing is signalled to the caller. -/
theorem c9_bad_length_silent_nil (padded : List ℝ) (h : padded.length ≠ 128000) :
    computeWhisperMelFromPadded padded = [] := by
  simp [computeWhisperMelFromPadded, h]

/-- Witness for C9 at the concrete one-sample buffer [0]. -/
theorem c9_bad_length_silent_nil_witness :
    ([(0 : ℝ)].length ≠ 128000) ∧ computeWhisperMelFromPadded [(0 : ℝ)] = [] :=
  ⟨by decide, c9_bad_length_silent_nil [(0 : ℝ)] (by decide)⟩

/-! ## Config validator: embedding of Config and validateConfig

Go int fields become ℤ, float32 fields become ℚ (every float32 value is a
rational, and the validator only compares), paths are strings.  os.Stat is
abstracted by a stat oracle so that file existence is explicit. -/

structure Config where
  SampleRate : ℤ
  ChunkSize : ℤ
  VadThreshold : ℚ
  VadPreSpeechMs : ℤ
  VadStopMs : ℤ
  TurnMaxDurationSeconds : ℚ
  TurnSegmentEmitMs : ℤ
  TurnThreshold : ℚ
  TurnTimeoutMs : ℤ
  SileroVADModelPath : String
  SmartTurnModelPath : String

/-- Outcome of os.Stat on a path: success, a does-not-exist error, or any
other error (carrying its message). -/
inductive StatResult
  | ok
  | notExist
  | failed (msg : String)
deriving DecidableEq

/-- validateConfig: the if-chain of the source, in source order; none
models a nil error (valid config). -/
def validateConfig (stat : String → StatResult) (cfg : Config) : Option String :=
  if cfg.SampleRate ≠ 16000 then some "config: SampleRate must be 16000"
  else if cfg.ChunkSize ≠ 512 then some "config: ChunkSize must be 512"
  else if cfg.VadThreshold < 0 ∨ cfg.VadThreshold > 1 then
    some "config: VadThreshold must be in [0, 1]"
  else if cfg.VadPreSpeechMs < 0 then some "config: VadPreSpeechMs must be >= 0"
  else if cfg.VadStopMs ≤ 0 then some "config: VadStopMs must be > 0"
  else if cfg.TurnMaxDurationSeconds ≤ 0 then some "config: TurnMaxDurationSeconds must be > 0"
  else if cfg.TurnSegmentEmitMs ≤ 0 then some "config: TurnSegmentEmitMs must be > 0"
  else if cfg.TurnThreshold < 0 ∨ cfg.TurnThreshold > 1 then
    some "config: TurnThreshold must be in [0, 1]"
  else if cfg.TurnTimeoutMs ≤ 0 then some "config: TurnTimeoutMs must be > 0"
  else if cfg.SileroVADModelPath = "" then some "config: SileroVADModelPath is required"
  else if cfg.SmartTurnModelPath = "" then some "config: SmartTurnModelPath is required"
  else
    match stat cfg.SileroVADModelPath with
    | StatResult.notExist =>
        some ("config: Silero VAD model file not found: " ++ cfg.SileroVADModelPath)
    | StatResult.failed e => some e
    | StatResult.ok =>
      match stat cfg.SmartTurnModelPath with
      | StatResult.notExist =>
          some ("config: Smart-Turn model file not found: " ++ cfg.SmartTurnModelPath)
      | StatResult.failed e => some e
      | StatResult.ok => none

/-- The ordered invariant list the spec ascribes to the validator: sample
rate, chunk size, VAD threshold range, pre-speech, stop-silence, max
duration, emit cadence, turn threshold range, timeout, the two non-empty
model paths, the two model files existing on disk.  Each entry is (the
invariant holds, the violation message reported for it). -/
def specCheckList (stat : String → StatResult) (cfg : Config) : List (Bool × String) :=
  [ (decide (cfg.SampleRate = 16000), "config: SampleRate must be 16000"),
    (decide (cfg.ChunkSize = 512), "config: ChunkSize must be 512"),
    (decide (0 ≤ cfg.VadThreshold ∧ cfg.VadThreshold ≤ 1),
      "config: VadThreshold must be in [0, 1]"),
    (decide (0 ≤ cfg.VadPreSpeechMs), "config: VadPreSpeechMs must be >= 0"),
    (decide (0 < cfg.VadStopMs), "config: VadStopMs must be > 0"),
    (decide (0 < cfg.TurnMaxDurationSeconds), "config: TurnMaxDurationSeconds must be > 0"),
    (decide (0 < cfg.TurnSegmentEmitMs), "config: TurnSegmentEmitMs must be > 0"),
    (decide (0 ≤ cfg.TurnThreshold ∧ cfg.TurnThreshold ≤ 1),
      "config: TurnThreshold must be in [0, 1]"),
    (decide (0 < cfg.TurnTimeoutMs), "config: TurnTimeoutMs must be > 0"),
    (decide (cfg.SileroVADModelPath ≠ ""), "config: SileroVADModelPath is required"),
    (decide (cfg.SmartTurnModelPath ≠ ""), "config: SmartTurnModelPath is required"),
    (decide (stat cfg.SileroVADModelPath = StatResult.ok),
      match stat cfg.SileroVADModelPath with
      | StatResult.failed e => e
      | _ => "config: Silero VAD model file not found: " ++ cfg.SileroVADModelPath),
    (decide (stat cfg.SmartTurnModelPath = StatResult.ok),
      match stat cfg.SmartTurnModelPath with
      | StatResult.failed e => e
      | _ => "config: Smart-Turn model file not found: " ++ cfg.SmartTurnModelPath) ]

/-- First-violation semantics, from the spec wording: the validator
reports the message of the first entry whose invariant fails, and none
when every invariant holds (no aggregation of later violations). -/
def firstViolation (checks : List (Bool × String)) : Option String :=
  (checks.find? (fun c => !c.1)).map (fun c => c.2)

/-! ## Resolver: embedding of examples/utility/resolver

The effectful parts are embedded operationally: the filesystem is a map
from paths to byte counts, one HTTP exchange is one DLEnv value, and each
operation returns the final filesystem, the Go return value, and whether
it issued an HTTP request. -/

/-- Filesystem model: a path maps to some n (an n-byte file) or none. -/
def FS : Type := String → Option ℕ

/-- pathExists (os.Stat succeeding). -/
def FS.check (fs : FS) (p : String) : Bool := (fs p).isSome

/-- Creating/overwriting a file of n bytes. -/
def FS.write (fs : FS) (p : String) (n : ℕ) : FS :=
  fun q => if q = p then some n else fs q

/-- os.Remove. -/
def FS.remove (fs : FS) (p : String) : FS :=
  fun q => if q = p then none else fs q

/-- os.Rename a b: b receives a's content, a disappears. -/
def FS.rename (fs : FS) (a b : String) : FS :=
  fun q => if q = b then fs a else if q = a then none else fs q

/-- Outcome of the single http.Get of a download attempt. -/
inductive GetResult
  | netError
  | status (code : ℕ)
deriving DecidableEq

/-- Outcome of streaming the response body into the temp file (io.Copy):
failure after writing some bytes, or a complete copy of n bytes. -/
inductive BodyOutcome
  | copyErr (part : ℕ)
  | copied (n : ℕ)
deriving DecidableEq

/-- The environment of one download attempt: the HTTP outcome, the body
outcome, and whether os.MkdirAll / os.Create / os.Rename fail. -/
structure DLEnv where
  get : GetResult
  body : BodyOutcome
  mkdirFails : Bool
  createFails : Bool
  renameFails : Bool

/-- Result of a resolver operation: the final filesystem, the Go return
value (ok path, or an error message), and whether an HTTP request was
issued. -/
structure DLResult where
  fs : FS
  res : Except String String
  fetched : Bool

/-- filepath.Join for the joins the resolver performs (Go path cleaning
is irrelevant to these claims and not modelled). -/
def pjoin (a b : String) : String := a ++ "/" ++ b

/-- downloadFile: return early when the destination already exists;
otherwise mkdir, GET, check the status, stream the body into path+".tmp",
reject an empty body, and rename the temp file into place; every error
after the temp file exists removes it.  (The Go locals path and tmp are
inlined as pjoin destDir destName and pjoin destDir destName ++ ".tmp".) -/
def downloadFile (env : DLEnv) (fs : FS) (url destDir destName : String) : DLResult :=
  if FS.check fs (pjoin destDir destName) then
    ⟨fs, Except.ok (pjoin destDir destName), false⟩
  else if env.mkdirFails then ⟨fs, Except.error ("mkdir " ++ destDir), false⟩
  else
    match env.get with
    | GetResult.netError => ⟨fs, Except.error ("GET " ++ url), true⟩
    | GetResult.status code =>
      if code ≠ 200 then ⟨fs, Except.error ("GET " ++ url ++ ": status"), true⟩
      else if env.createFails then
        ⟨fs, Except.error ("create " ++ (pjoin destDir destName ++ ".tmp")), true⟩
      else
        match env.body with
        | BodyOutcome.copyErr part =>
            ⟨(FS.write fs (pjoin destDir destName ++ ".tmp") part).remove
                (pjoin destDir destName ++ ".tmp"),
              Except.error ("write " ++ (pjoin destDir destName ++ ".tmp")), true⟩
        | BodyOutcome.copied n =>
          if n = 0 then
            ⟨(FS.write fs (pjoin destDir destName ++ ".tmp") n).remove
                (pjoin destDir destName ++ ".tmp"),
              Except.error ("empty response from " ++ url), true⟩
          else if env.renameFails then
            ⟨(FS.write fs (pjoin destDir destName ++ ".tmp") n).remove
                (pjoin destDir destName ++ ".tmp"),
              Except.error ("rename to " ++ pjoin destDir destName), true⟩
          else
            ⟨(FS.write fs (pjoin destDir destName ++ ".tmp") n).rename
                (pjoin destDir destName ++ ".tmp") (pjoin destDir destName),
              Except.ok (pjoin destDir destName), true⟩

def urlSileroVAD : String :=
  "https://github.com/snakers4/silero-vad/raw/refs/heads/master/src/silero_vad/data/silero_vad.onnx"

def sileroVADName : String := "silero_vad.onnx"

/-- The tail both resolve functions share: propagate a download error,
and return filepath.Abs of the path on success (abs models filepath.Abs
for the ambient working directory). -/
def absWrap (abs : String → String) (r : DLResult) : DLResult :=
  match r.res with
  | Except.error e => ⟨r.fs, Except.error e, r.fetched⟩
  | Except.ok p => ⟨r.fs, Except.ok (abs p), r.fetched⟩

/-- ResolveSileroVAD: downloadFile into dir, then filepath.Abs. -/
def ResolveSileroVAD (env : DLEnv) (abs : String → String) (fs : FS) (dir : String) : DLResult :=
  absWrap abs (downloadFile env fs urlSileroVAD dir sileroVADName)

def urlONNXRuntimeBase : String :=
  "https://github.com/yalue/onnxruntime_go/raw/refs/heads/master/test_data"

/-- onnxRuntimeURL: the Go map lookup m[GOOS+"_"+GOARCH]; a missing key
yields the zero value "". -/
def onnxRuntimeURL (goos goarch : String) : String :=
  let key := goos ++ "_" ++ goarch
  if key = "windows_amd64" then urlONNXRuntimeBase ++ "/onnxruntime.dll"
  else if key = "darwin_amd64" then urlONNXRuntimeBase ++ "/onnxruntime_amd64.dylib"
  else if key = "darwin_arm64" then urlONNXRuntimeBase ++ "/onnxruntime_arm64.dylib"
  else if key = "linux_arm64" then urlONNXRuntimeBase ++ "/onnxruntime_arm64.so"
  else ""

/-- bundledLibNames, by GOOS (default branch: linux and the rest). -/
def bundledLibNames (goos : String) : List String :=
  if goos = "darwin" then ["libonnxruntime.dylib"]
  else if goos = "windows" then ["onnxruntime.dll"]
  else ["libonnxruntime.so.1.23.2", "libonnxruntime.so"]

/-- dataDirLibName, by GOOS/GOARCH. -/
def dataDirLibName (goos goarch : String) : String :=
  if goos = "darwin" then "onnxruntime_" ++ goarch ++ ".dylib"
  else if goos = "windows" then "onnxruntime.dll"
  else "onnxruntime_" ++ goarch ++ ".so"

/-- candidateBaseDirs: the working directory (already "." when os.Getwd
failed), plus the executable's directory when known and distinct. -/
def candidateBaseDirs (cwd : String) (exeDir : Option String) : List String :=
  match exeDir with
  | none => [cwd]
  | some d => if d = cwd then [cwd] else [cwd, d]

/-- ResolveONNXRuntimeLib: the first loop scans data/ with the
platform-tagged name over every base dir (the first hit is returned), the
second loop scans lib/(os)_(arch)/ with each standard name; empty bases
are skipped and "" is returned when nothing exists.  Each early-returning
Go loop is one List.find?. -/
def ResolveONNXRuntimeLib (goos goarch cwd : String) (exeDir : Option String) (fs : FS) : String :=
  match ((candidateBaseDirs cwd exeDir).filter (fun b => b ≠ "")).find?
      (fun base => FS.check fs (pjoin (pjoin base "data") (dataDirLibName goos goarch))) with
  | some base => pjoin (pjoin base "data") (dataDirLibName goos goarch)
  | none =>
    match (((candidateBaseDirs cwd exeDir).filter (fun b => b ≠ "")).flatMap
        (fun base => (bundledLibNames goos).map
          (fun name => pjoin (pjoin (pjoin base "lib") (goos ++ "_" ++ goarch)) name))).find?
        (fun p => FS.check fs p) with
    | some p => p
    | none => ""

/-- filepath.Base on the URLs at hand: the part after the last slash. -/
def baseName (url : String) : String := (url.splitOn "/").getLastD url

/-- ResolveONNXRuntimeLibWithDownload: when the platform has no download
URL, fall back to path-only resolution (no request, nil error); otherwise
download into dir and return the absolute path. -/
def ResolveONNXRuntimeLibWithDownload (env : DLEnv) (abs : String → String)
    (goos goarch cwd : String) (exeDir : Option String) (fs : FS) (dir : String) : DLResult :=
  if onnxRuntimeURL goos goarch = "" then
    ⟨fs, Except.ok (ResolveONNXRuntimeLib goos goarch cwd exeDir fs), false⟩
  else
    absWrap abs (downloadFile env fs (onnxRuntimeURL goos goarch) dir
      (baseName (onnxRuntimeURL goos goarch)))

/-- The bundle locations the spec says the path-only scanner checks, in
order: a data/ directory with the platform-tagged name over each base
directory, then lib/(os)_(arch)/ with each standard name. -/
def specBundleCandidates (goos goarch cwd : String) (exeDir : Option String) : List String :=
  let bases := (candidateBaseDirs cwd exeDir).filter (fun b => b ≠ "")
  bases.map (fun base => pjoin (pjoin base "data") (dataDirLibName goos goarch))
    ++ bases.flatMap (fun base => (bundledLibNames goos).map
        (fun name => pjoin (pjoin (pjoin base "lib") (goos ++ "_" ++ goarch)) name))

/-! ## C4: the config validator -/

/-- firstViolation skips a satisfied invariant. -/
theorem firstViolation_pass (s : String) (rest : List (Bool × String)) :
    firstViolation ((true, s) :: rest) = firstViolation rest := rfl

/-- firstViolation reports a violated invariant at once. -/
theorem firstViolation_fail (s : String) (rest : List (Bool × String)) :
    firstViolation ((false, s) :: rest) = some s := rfl

/-- C4: validateConfig is a pure check equal to first-violation semantics
over the fixed ordered invariant list (so it stops at the first failure
and never aggregates), and in particular SampleRate 44100 draws the
sample-rate error, ChunkSize 256 is rejected, and VadThreshold 1.5 (= 3/2)
is rejected. -/
theorem c4_validator_first_violation (stat : String → StatResult) (cfg : Config) :
    validateConfig stat cfg = firstViolation (specCheckList stat cfg)
    ∧ (cfg.SampleRate = 44100 →
        validateConfig stat cfg = some "config: SampleRate must be 16000")
    ∧ (cfg.ChunkSize = 256 → (validateConfig stat cfg).isSome = true)
    ∧ (cfg.VadThreshold = 3 / 2 → (validateConfig stat cfg).isSome = true) := by
  refine ⟨?_, ?_, ?_, ?_⟩
  · unfold validateConfig specCheckList
    by_cases h1 : cfg.SampleRate = 16000
    swap
    · rw [if_pos h1, decide_eq_false h1, firstViolation_fail]
    rw [if_neg (not_not_intro h1), decide_eq_true h1, firstViolation_pass]
    by_cases h2 : cfg.ChunkSize = 512
    swap
    · rw [if_pos h2, decide_eq_false h2, firstViolation_fail]
    rw [if_neg (not_not_intro h2), decide_eq_true h2, firstViolation_pass]
    by_cases h3 : 0 ≤ cfg.VadThreshold ∧ cfg.VadThreshold ≤ 1
    swap
    · rw [if_pos ?_, decide_eq_false h3, firstViolation_fail]
      rcases not_and_or.mp h3 with h | h
      · exact Or.inl (not_le.mp h)
      · exact Or.inr (not_le.mp h)
    rw [if_neg (by simp only [not_or, not_lt]; exact h3), decide_eq_true h3,
      firstViolation_pass]
    by_cases h4 : 0 ≤ cfg.VadPreSpeechMs
    swap
    · rw [if_pos (not_le.mp h4), decide_eq_false h4, firstViolation_fail]
    rw [if_neg (not_lt.mpr h4), decide_eq_true h4, firstViolation_pass]
    by_cases h5 : 0 < cfg.VadStopMs
    swap
    · rw [if_pos (not_lt.mp h5), decide_eq_false h5, firstViolation_fail]
    rw [if_neg (not_le.mpr h5), decide_eq_true h5, firstViolation_pass]
    by_cases h6 : 0 < cfg.TurnMaxDurationSeconds
    swap
    · rw [if_pos (not_lt.mp h6), decide_eq_false h6, firstViolation_fail]
    rw [if_neg (not_le.mpr h6), decide_eq_true h6, firstViolation_pass]
    by_cases h7 : 0 < cfg.TurnSegmentEmitMs
    swap
    · rw [if_pos (not_lt.mp h7), decide_eq_false h7, firstViolation_fail]
    rw [if_neg (not_le.mpr h7), decide_eq_true h7, firstViolation_pass]
    by_cases h8 : 0 ≤ cfg.TurnThreshold ∧ cfg.TurnThreshold ≤ 1
    swap
    · rw [if_pos ?_, decide_eq_false h8, firstViolation_fail]
      rcases not_and_or.mp h8 with h | h
      · exact Or.inl (not_le.mp h)
      · exact Or.inr (not_le.mp h)
    rw [if_neg (by simp only [not_or, not_lt]; exact h8), decide_eq_true h8,
      firstViolation_pass]
    by_cases h9 : 0 < cfg.TurnTimeoutMs
    swap
    · rw [if_pos (not_lt.mp h9), decide_eq_false h9, firstViolation_fail]
    rw [if_neg (not_le.mpr h9), decide_eq_true h9, firstViolation_pass]
    by_cases h10 : cfg.SileroVADModelPath = ""
    · rw [if_pos h10, decide_eq_false (not_not_intro h10), firstViolation_fail]
    rw [if_neg h10, decide_eq_true h10, firstViolation_pass]
    by_cases h11 : cfg.SmartTurnModelPath = ""
    · rw [if_pos h11, decide_eq_false (not_not_intro h11), firstViolation_fail]
    rw [if_neg h11, decide_eq_true h11, firstViolation_pass]
    cases stat cfg.SileroVADModelPath with
    | ok =>
      rw [decide_eq_true rfl, firstViolation_pass]
      cases stat cfg.SmartTurnModelPath with
      | ok => rw [decide_eq_true rfl, firstViolation_pass]; rfl
      | notExist => rw [decide_eq_false (by intro hc; cases hc), firstViolation_fail]
      | failed e => rw [decide_eq_false (by intro hc; cases hc), firstViolation_fail]
    | notExist => rw [decide_eq_false (by intro hc; cases hc), firstViolation_fail]
    | failed e => rw [decide_eq_false (by intro hc; cases hc), firstViolation_fail]
  · intro h
    unfold validateConfig
    rw [if_pos (by rw [h]; decide)]
  · intro h
    unfold validateConfig
    by_cases h1 : cfg.SampleRate ≠ 16000
    · rw [if_pos h1]; rfl
    rw [if_neg h1, if_pos (by rw [h]; decide)]; rfl
  · intro h
    unfold validateConfig
    by_cases h1 : cfg.SampleRate ≠ 16000
    · rw [if_pos h1]; rfl
    rw [if_neg h1]
    by_cases h2 : cfg.ChunkSize ≠ 512
    · rw [if_pos h2]; rfl
    rw [if_neg h2, if_pos (Or.inr (by rw [h]; norm_num))]; rfl

/-- A stat oracle for the C4 witness (every path missing). -/
def statNone : String → StatResult := fun _ => StatResult.notExist

/-- Witness for C4 at three concrete configurations. -/
theorem c4_validator_first_violation_witness :
    validateConfig statNone ⟨44100, 512, 1/2, 200, 800, 600, 1000, 9/10, 1000, "a", "b"⟩
      = some "config: SampleRate must be 16000"
    ∧ (validateConfig statNone
        ⟨16000, 256, 1/2, 200, 800, 600, 1000, 9/10, 1000, "a", "b"⟩).isSome = true
    ∧ (validateConfig statNone
        ⟨16000, 512, 3/2, 200, 800, 600, 1000, 9/10, 1000, "a", "b"⟩).isSome = true :=
  ⟨(c4_validator_first_violation statNone _).2.1 rfl,
   (c4_validator_first_violation statNone _).2.2.1 rfl,
   (c4_validator_first_violation statNone _).2.2.2 rfl⟩


/-! ## C5, C6, C7: the resolver -/

/-- Appending ".tmp" changes a path. -/
theorem tmp_ne_path (p : String) : p ++ ".tmp" ≠ p := by
  intro h
  have h2 := congrArg String.length h
  rw [String.length_append] at h2
  have h3 : (".tmp" : String).length = 4 := rfl
  omega

/-- downloadFile returns the existing destination without any request. -/
theorem downloadFile_of_exists (env : DLEnv) (fs : FS) (url destDir destName : String)
    (h : FS.check fs (pjoin destDir destName) = true) :
    downloadFile env fs url destDir destName
      = ⟨fs, Except.ok (pjoin destDir destName), false⟩ := by
  unfold downloadFile
  rw [if_pos h]

/-- Exhaustive outcome analysis of downloadFile when the destination is
absent. -/
theorem downloadFile_cases (env : DLEnv) (fs : FS) (url destDir destName : String)
    (h : FS.check fs (pjoin destDir destName) = false) :
    (env.mkdirFails = true ∧ downloadFile env fs url destDir destName
        = ⟨fs, Except.error ("mkdir " ++ destDir), false⟩)
    ∨ (env.get = GetResult.netError ∧ downloadFile env fs url destDir destName
        = ⟨fs, Except.error ("GET " ++ url), true⟩)
    ∨ (∃ code, code ≠ 200 ∧ env.get = GetResult.status code
        ∧ downloadFile env fs url destDir destName
            = ⟨fs, Except.error ("GET " ++ url ++ ": status"), true⟩)
    ∨ (env.createFails = true ∧ downloadFile env fs url destDir destName
        = ⟨fs, Except.error ("create " ++ (pjoin destDir destName ++ ".tmp")), true⟩)
    ∨ (∃ part, env.body = BodyOutcome.copyErr part
        ∧ downloadFile env fs url destDir destName
            = ⟨(FS.write fs (pjoin destDir destName ++ ".tmp") part).remove
                  (pjoin destDir destName ++ ".tmp"),
                Except.error ("write " ++ (pjoin destDir destName ++ ".tmp")), true⟩)
    ∨ (env.body = BodyOutcome.copied 0 ∧ downloadFile env fs url destDir destName
        = ⟨(FS.write fs (pjoin destDir destName ++ ".tmp") 0).remove
              (pjoin destDir destName ++ ".tmp"),
            Except.error ("empty response from " ++ url), true⟩)
    ∨ (∃ n, n ≠ 0 ∧ env.body = BodyOutcome.copied n ∧ env.renameFails = true
        ∧ downloadFile env fs url destDir destName
            = ⟨(FS.write fs (pjoin destDir destName ++ ".tmp") n).remove
                  (pjoin destDir destName ++ ".tmp"),
                Except.error ("rename to " ++ pjoin destDir destName), true⟩)
    ∨ (env.get = GetResult.status 200 ∧ ∃ n, n ≠ 0 ∧ env.body = BodyOutcome.copied n
        ∧ downloadFile env fs url destDir destName
            = ⟨(FS.write fs (pjoin destDir destName ++ ".tmp") n).rename
                  (pjoin destDir destName ++ ".tmp") (pjoin destDir destName),
                Except.ok (pjoin destDir destName), true⟩) := by
  have hnot : ¬ FS.check fs (pjoin destDir destName) = true := by
    rw [h]
    exact Bool.false_ne_true
  cases hmk : env.mkdirFails with
  | true =>
    refine Or.inl ⟨rfl, ?_⟩
    unfold downloadFile
    rw [if_neg hnot, if_pos hmk]
  | false =>
    have hmkne : ¬ env.mkdirFails = true := by
      rw [hmk]
      exact Bool.false_ne_true
    cases hg : env.get with
    | netError =>
      refine Or.inr (Or.inl ⟨rfl, ?_⟩)
      unfold downloadFile
      rw [if_neg hnot, if_neg hmkne, hg]
    | status code =>
      by_cases hcode : code = 200
      case neg =>
        refine Or.inr (Or.inr (Or.inl ⟨code, hcode, rfl, ?_⟩))
        unfold downloadFile
        rw [if_neg hnot, if_neg hmkne, hg]
        dsimp only
        rw [if_pos hcode]
      case pos =>
        subst hcode
        cases hcr : env.createFails with
        | true =>
          refine Or.inr (Or.inr (Or.inr (Or.inl ⟨rfl, ?_⟩)))
          unfold downloadFile
          rw [if_neg hnot, if_neg hmkne, hg]
          dsimp only
          rw [if_neg (not_not_intro rfl), if_pos hcr]
        | false =>
          have hcrne : ¬ env.createFails = true := by
            rw [hcr]
            exact Bool.false_ne_true
          cases hb : env.body with
          | copyErr part =>
            refine Or.inr (Or.inr (Or.inr (Or.inr (Or.inl ⟨part, rfl, ?_⟩))))
            unfold downloadFile
            rw [if_neg hnot, if_neg hmkne, hg]
            dsimp only
            rw [if_neg (not_not_intro rfl), if_neg hcrne, hb]
          | copied n =>
            by_cases hn : n = 0
            case pos =>
              subst hn
              refine Or.inr (Or.inr (Or.inr (Or.inr (Or.inr (Or.inl ⟨rfl, ?_⟩)))))
              unfold downloadFile
              rw [if_neg hnot, if_neg hmkne, hg]
              dsimp only
              rw [if_neg (not_not_intro rfl), if_neg hcrne, hb]
              dsimp only
              rw [if_pos rfl]
            case neg =>
              cases hrn : env.renameFails with
              | true =>
                refine Or.inr (Or.inr (Or.inr (Or.inr (Or.inr (Or.inr (Or.inl
                  ⟨n, hn, rfl, rfl, ?_⟩))))))
                unfold downloadFile
                rw [if_neg hnot, if_neg hmkne, hg]
                dsimp only
                rw [if_neg (not_not_intro rfl), if_neg hcrne, hb]
                dsimp only
                rw [if_neg hn, if_pos hrn]
              | false =>
                refine Or.inr (Or.inr (Or.inr (Or.inr (Or.inr (Or.inr (Or.inr
                  ⟨rfl, n, hn, rfl, ?_⟩))))))
                unfold downloadFile
                rw [if_neg hnot, if_neg hmkne, hg]
                dsimp only
                rw [if_neg (not_not_intro rfl), if_neg hcrne, hb]
                dsimp only
                rw [if_neg hn, if_neg (by rw [hrn]; exact Bool.false_ne_true)]

/-- Writing then removing the temp name leaves every other path alone and
the temp name absent. -/
theorem write_remove_tmp (fs : FS) (p : String) (n : ℕ) (q : String) :
    ((FS.write fs (p ++ ".tmp") n).remove (p ++ ".tmp")) q
      = if q = p ++ ".tmp" then none else fs q := by
  unfold FS.remove FS.write
  by_cases hq : q = p ++ ".tmp"
  · rw [if_pos hq, if_pos hq]
  · rw [if_neg hq, if_neg hq, if_neg hq]

/-- C5: starting from a filesystem with neither the destination nor the
temp file, a network failure, a non-success status, or an empty body makes
downloadFile return an error to the caller, and on every error return
neither the final destination path nor the temporary path holds a file
(the body only ever lands at the temporary name, which every error path
removes). -/
theorem c5_download_error_atomicity (env : DLEnv) (fs : FS) (url destDir destName : String)
    (hdest : fs (pjoin destDir destName) = none)
    (htmp : fs (pjoin destDir destName ++ ".tmp") = none) :
    ((env.get = GetResult.netError ∨ (∃ c, env.get = GetResult.status c ∧ c ≠ 200)
        ∨ env.body = BodyOutcome.copied 0) →
      ∃ e, (downloadFile env fs url destDir destName).res = Except.error e)
    ∧ (∀ e, (downloadFile env fs url destDir destName).res = Except.error e →
        (downloadFile env fs url destDir destName).fs (pjoin destDir destName) = none
        ∧ (downloadFile env fs url destDir destName).fs
            (pjoin destDir destName ++ ".tmp") = none) := by
  have hpne : pjoin destDir destName ≠ pjoin destDir destName ++ ".tmp" :=
    Ne.symm (tmp_ne_path (pjoin destDir destName))
  have h : FS.check fs (pjoin destDir destName) = false := by
    unfold FS.check
    rw [hdest]
    rfl
  have hrm : ∀ n : ℕ, ((FS.write fs (pjoin destDir destName ++ ".tmp") n).remove
        (pjoin destDir destName ++ ".tmp")) (pjoin destDir destName) = none
      ∧ ((FS.write fs (pjoin destDir destName ++ ".tmp") n).remove
        (pjoin destDir destName ++ ".tmp")) (pjoin destDir destName ++ ".tmp") = none := by
    intro n
    rw [write_remove_tmp, write_remove_tmp, if_neg hpne, if_pos rfl]
    exact ⟨hdest, rfl⟩
  rcases downloadFile_cases env fs url destDir destName h with
    ⟨hmk, heq⟩ | ⟨hg, heq⟩ | ⟨code, hcode, hg, heq⟩ | ⟨hcr, heq⟩ | ⟨part, hb, heq⟩
    | ⟨hb, heq⟩ | ⟨n, hn, hb, hrn, heq⟩ | ⟨hg, n, hn, hb, heq⟩
  · exact ⟨fun hc => ⟨_, by rw [heq]⟩, fun e he => by rw [heq]; exact ⟨hdest, htmp⟩⟩
  · exact ⟨fun hc => ⟨_, by rw [heq]⟩, fun e he => by rw [heq]; exact ⟨hdest, htmp⟩⟩
  · exact ⟨fun hc => ⟨_, by rw [heq]⟩, fun e he => by rw [heq]; exact ⟨hdest, htmp⟩⟩
  · exact ⟨fun hc => ⟨_, by rw [heq]⟩, fun e he => by rw [heq]; exact ⟨hdest, htmp⟩⟩
  · exact ⟨fun hc => ⟨_, by rw [heq]⟩, fun e he => by rw [heq]; exact hrm part⟩
  · exact ⟨fun hc => ⟨_, by rw [heq]⟩, fun e he => by rw [heq]; exact hrm 0⟩
  · exact ⟨fun hc => ⟨_, by rw [heq]⟩, fun e he => by rw [heq]; exact hrm n⟩
  · refine ⟨?_, fun e he => ?_⟩
    · rintro (hc | ⟨c, hc, hc2⟩ | hc)
      · rw [hg] at hc
        cases hc
      · rw [hg] at hc
        cases hc
        exact absurd rfl hc2
      · rw [hb] at hc
        cases hc
        exact absurd rfl hn
    · rw [heq] at he
      cases he

/-- C6: resolution is idempotent: a destination that already exists is
returned as-is with no request issued and the filesystem untouched, and
after one successful ResolveSileroVAD a second call over the resulting
filesystem returns the same absolute path, issues no request, and leaves
the filesystem unchanged (so at most the first call fetches). -/
theorem c6_resolver_idempotent (env1 env2 : DLEnv) (abs : String → String)
    (fs : FS) (dir : String) :
    (∀ url name, FS.check fs (pjoin dir name) = true →
      downloadFile env1 fs url dir name = ⟨fs, Except.ok (pjoin dir name), false⟩)
    ∧ (∀ p, (ResolveSileroVAD env1 abs fs dir).res = Except.ok p →
        (ResolveSileroVAD env2 abs (ResolveSileroVAD env1 abs fs dir).fs dir).res = Except.ok p
        ∧ (ResolveSileroVAD env2 abs (ResolveSileroVAD env1 abs fs dir).fs dir).fetched = false
        ∧ ∀ q, (ResolveSileroVAD env2 abs (ResolveSileroVAD env1 abs fs dir).fs dir).fs q
            = (ResolveSileroVAD env1 abs fs dir).fs q) := by
  refine ⟨fun url name hex => downloadFile_of_exists env1 fs url dir name hex, fun p hp => ?_⟩
  have main : FS.check (ResolveSileroVAD env1 abs fs dir).fs (pjoin dir sileroVADName) = true
      ∧ p = abs (pjoin dir sileroVADName) := by
    by_cases hex : FS.check fs (pjoin dir sileroVADName) = true
    · have h1 : ResolveSileroVAD env1 abs fs dir
          = ⟨fs, Except.ok (abs (pjoin dir sileroVADName)), false⟩ := by
        unfold ResolveSileroVAD
        rw [downloadFile_of_exists env1 fs urlSileroVAD dir sileroVADName hex]
        rfl
      rw [h1] at hp ⊢
      cases hp
      exact ⟨hex, rfl⟩
    · have h : FS.check fs (pjoin dir sileroVADName) = false := by
        cases hcv : FS.check fs (pjoin dir sileroVADName)
        · rfl
        · exact absurd hcv hex
      rcases downloadFile_cases env1 fs urlSileroVAD dir sileroVADName h with
        ⟨hmk, heq⟩ | ⟨hg, heq⟩ | ⟨code, hcode, hg, heq⟩ | ⟨hcr, heq⟩ | ⟨part, hb, heq⟩
        | ⟨hb, heq⟩ | ⟨n, hn, hb, hrn, heq⟩ | ⟨hg, n, hn, hb, heq⟩
      all_goals
        unfold ResolveSileroVAD at hp ⊢
      all_goals
        rw [heq] at hp ⊢
      all_goals
        try cases hp
      refine ⟨?_, rfl⟩
      unfold FS.check FS.rename FS.write
      dsimp only [absWrap]
      rw [if_pos rfl, if_pos rfl]
      rfl
  obtain ⟨hex2, hp2⟩ := main
  subst hp2
  have h2 : ResolveSileroVAD env2 abs (ResolveSileroVAD env1 abs fs dir).fs dir
      = ⟨(ResolveSileroVAD env1 abs fs dir).fs, Except.ok (abs (pjoin dir sileroVADName)),
          false⟩ := by
    show absWrap abs (downloadFile env2 (ResolveSileroVAD env1 abs fs dir).fs urlSileroVAD
      dir sileroVADName) = _
    rw [downloadFile_of_exists env2 _ urlSileroVAD dir sileroVADName hex2]
    rfl
  rw [h2]
  exact ⟨rfl, rfl, fun q => rfl⟩

/-- C7: when the platform has no download URL,
ResolveONNXRuntimeLibWithDownload issues no request, reports no error, and
returns the path-only scan, which equals the first existing path of the
spec's ordered bundle candidates (data/ with the platform-tagged name over
each base, then lib/(os)_(arch)/ with the standard names) — and the empty
string, not an error, when no candidate exists. -/
theorem c7_no_url_bundle_fallback (env : DLEnv) (abs : String → String)
    (goos goarch cwd dir : String) (exeDir : Option String) (fs : FS)
    (hurl : onnxRuntimeURL goos goarch = "") :
    (ResolveONNXRuntimeLibWithDownload env abs goos goarch cwd exeDir fs dir).fetched = false
    ∧ (ResolveONNXRuntimeLibWithDownload env abs goos goarch cwd exeDir fs dir).res
        = Except.ok (ResolveONNXRuntimeLib goos goarch cwd exeDir fs)
    ∧ (∀ q, (ResolveONNXRuntimeLibWithDownload env abs goos goarch cwd exeDir fs dir).fs q = fs q)
    ∧ ResolveONNXRuntimeLib goos goarch cwd exeDir fs
        = ((specBundleCandidates goos goarch cwd exeDir).find?
            (fun p => FS.check fs p)).getD ""
    ∧ ((∀ p ∈ specBundleCandidates goos goarch cwd exeDir, FS.check fs p = false) →
        ResolveONNXRuntimeLib goos goarch cwd exeDir fs = "") := by
  have hscan : ResolveONNXRuntimeLib goos goarch cwd exeDir fs
      = ((specBundleCandidates goos goarch cwd exeDir).find?
          (fun p => FS.check fs p)).getD "" := by
    unfold ResolveONNXRuntimeLib specBundleCandidates
    rw [List.find?_append, List.find?_map]
    have hcomp : ((fun p => FS.check fs p) ∘
        (fun base => pjoin (pjoin base "data") (dataDirLibName goos goarch)))
        = fun base => FS.check fs (pjoin (pjoin base "data") (dataDirLibName goos goarch)) := rfl
    rw [hcomp]
    cases hfind : ((candidateBaseDirs cwd exeDir).filter (fun b => b ≠ "")).find?
        (fun base => FS.check fs (pjoin (pjoin base "data") (dataDirLibName goos goarch))) with
    | some base => rfl
    | none =>
      cases hfind2 : (((candidateBaseDirs cwd exeDir).filter (fun b => b ≠ "")).flatMap
          (fun base => (bundledLibNames goos).map
            (fun name => pjoin (pjoin (pjoin base "lib") (goos ++ "_" ++ goarch)) name))).find?
          (fun p => FS.check fs p) with
      | some q => rfl
      | none => rfl
  have hmain : ResolveONNXRuntimeLibWithDownload env abs goos goarch cwd exeDir fs dir
      = ⟨fs, Except.ok (ResolveONNXRuntimeLib goos goarch cwd exeDir fs), false⟩ := by
    unfold ResolveONNXRuntimeLibWithDownload
    rw [if_pos hurl]
  refine ⟨by rw [hmain], by rw [hmain], fun q => by rw [hmain], hscan, fun hnone => ?_⟩
  rw [hscan, List.find?_eq_none.mpr ?_]
  · rfl
  · intro p hp
    rw [hnone p hp]
    exact Bool.false_ne_true

/-- A filesystem with no files, for witnesses. -/
def fsEmpty : FS := fun _ => none

/-- A filesystem where every path exists, for witnesses. -/
def fsAll : FS := fun _ => some 1

/-- A download environment witnessing a network failure. -/
def envNet : DLEnv := ⟨GetResult.netError, BodyOutcome.copied 5, false, false, false⟩

/-- Witness for C5: a network failure over an empty filesystem yields an
error. -/
theorem c5_download_error_atomicity_witness :
    ∃ e, (downloadFile envNet fsEmpty "u" "models" "silero_vad.onnx").res = Except.error e :=
  (c5_download_error_atomicity envNet fsEmpty "u" "models" "silero_vad.onnx" rfl rfl).1
    (Or.inl rfl)

/-- Witness for C6: an existing destination is returned without a fetch. -/
theorem c6_resolver_idempotent_witness :
    downloadFile envNet fsAll "u" "models" "silero_vad.onnx"
      = ⟨fsAll, Except.ok (pjoin "models" "silero_vad.onnx"), false⟩ :=
  (c6_resolver_idempotent envNet envNet id fsAll "models").1 "u" "silero_vad.onnx" rfl

/-- Witness for C7 on linux/amd64 (a platform with no download URL). -/
theorem c7_no_url_bundle_fallback_witness :
    (ResolveONNXRuntimeLibWithDownload envNet id "linux" "amd64" "." none fsEmpty
      "models").fetched = false :=
  (c7_no_url_bundle_fallback envNet id "linux" "amd64" "." "models" none fsEmpty (by rfl)).1

/-! ## List helpers for matrix maxima and minima -/

/-- Upper bound for a running maximum. -/
theorem foldl_max_le (l : List ℝ) (a c : ℝ) (ha : a ≤ c) (h : ∀ x ∈ l, x ≤ c) :
    l.foldl max a ≤ c := by
  induction l generalizing a with
  | nil => exact ha
  | cons y ys ih =>
    exact ih (max a y) (max_le ha (h y (List.mem_cons_self y ys)))
      fun x hx => h x (List.mem_cons_of_mem y hx)

/-- A running maximum dominates its initial value. -/
theorem le_foldl_max_init (l : List ℝ) (a : ℝ) : a ≤ l.foldl max a := by
  induction l generalizing a with
  | nil => exact le_refl a
  | cons y ys ih => exact le_trans (le_max_left a y) (ih (max a y))

/-- A running maximum dominates every element. -/
theorem le_foldl_max_mem (l : List ℝ) (x : ℝ) (hx : x ∈ l) :
    ∀ a, x ≤ l.foldl max a := by
  induction l with
  | nil => cases hx
  | cons y ys ih =>
    intro a
    rcases List.mem_cons.mp hx with h | h
    · subst h
      exact le_trans (le_max_right a x) (le_foldl_max_init ys (max a x))
    · exact ih h (max a y)

/-- Lower bound for a running minimum. -/
theorem le_foldl_min (l : List ℝ) (a c : ℝ) (ha : c ≤ a) (h : ∀ x ∈ l, c ≤ x) :
    c ≤ l.foldl min a := by
  induction l generalizing a with
  | nil => exact ha
  | cons y ys ih =>
    exact ih (min a y) (le_min ha (h y (List.mem_cons_self y ys)))
      fun x hx => h x (List.mem_cons_of_mem y hx)

/-- A running minimum is below its initial value. -/
theorem foldl_min_le_init (l : List ℝ) (a : ℝ) : l.foldl min a ≤ a := by
  induction l generalizing a with
  | nil => exact le_refl a
  | cons y ys ih => exact le_trans (ih (min a y)) (min_le_left a y)

/-- A running minimum is below every element. -/
theorem foldl_min_le_mem (l : List ℝ) (x : ℝ) (hx : x ∈ l) :
    ∀ a, l.foldl min a ≤ x := by
  induction l with
  | nil => cases hx
  | cons y ys ih =>
    intro a
    rcases List.mem_cons.mp hx with h | h
    · subst h
      exact le_trans (foldl_min_le_init ys (min a x)) (min_le_right a x)
    · exact ih h (min a y)

/-- getD over a mapped range evaluates the function. -/
theorem getD_map_range (n : ℕ) (f : ℕ → ℝ) (i : ℕ) (hi : i < n) :
    ((List.range n).map f).getD i 0 = f i := by
  rw [List.getD_eq_getElem?_getD, List.getElem?_map, List.getElem?_range hi]
  rfl

/-- headD is getD at 0. -/
theorem headD_eq_getD (l : List ℝ) (d : ℝ) : l.headD d = l.getD 0 d := by
  cases l <;> rfl

/-! ## Structural facts about the mel pipeline -/

/-- The source's running maximum is a plain foldl max over the 64000
cells. -/
theorem melMaxVal_eq (padded : List ℝ) :
    melMaxVal padded = ((List.range 64000).map
      (fun idx => melRawEntry padded (idx / 800) (idx % 800))).foldl max (-1e30) := by
  unfold melMaxVal
  rw [List.foldl_map]

/-- Every cell is bounded by the matrix maximum. -/
theorem melRawEntry_le_melMaxVal (padded : List ℝ) (m t : ℕ) (hm : m < 80) (ht : t < 800) :
    melRawEntry padded m t ≤ melMaxVal padded := by
  rw [melMaxVal_eq]
  have hidx : m * 800 + t < 64000 := by omega
  have h1 : (m * 800 + t) / 800 = m := by omega
  have h2 : (m * 800 + t) % 800 = t := by omega
  have hmem : melRawEntry padded m t ∈ (List.range 64000).map
      (fun idx => melRawEntry padded (idx / 800) (idx % 800)) := by
    refine List.mem_map.mpr ⟨m * 800 + t, List.mem_range.mpr hidx, ?_⟩
    rw [h1, h2]
  exact le_foldl_max_mem _ _ hmem _

/-- The matrix maximum is bounded by any bound on all cells. -/
theorem melMaxVal_le (padded : List ℝ) (c : ℝ) (hc : (-1e30 : ℝ) ≤ c)
    (h : ∀ m t, m < 80 → t < 800 → melRawEntry padded m t ≤ c) :
    melMaxVal padded ≤ c := by
  rw [melMaxVal_eq]
  refine foldl_max_le _ _ c hc ?_
  intro x hx
  obtain ⟨idx, hidx, rfl⟩ := List.mem_map.mp hx
  have hi := List.mem_range.mp hidx
  exact h _ _ (by omega) (by omega)

/-- Cells beyond the last complete 400-sample window are never written
and keep their zero initialisation. -/
theorem melRawEntry_unwritten (padded : List ℝ) (m t : ℕ)
    (h : ¬ t * 160 + 400 ≤ padded.length) : melRawEntry padded m t = 0 := by
  unfold melRawEntry
  rw [if_neg h]

/-- For a full 128000-sample buffer the matrix maximum is at least the
zero of the never-written column 798. -/
theorem melMaxVal_nonneg (padded : List ℝ) (hlen : padded.length = 128000) :
    0 ≤ melMaxVal padded := by
  have h0 : melRawEntry padded 0 798 = 0 :=
    melRawEntry_unwritten padded 0 798 (by rw [hlen]; omega)
  calc (0:ℝ) = melRawEntry padded 0 798 := h0.symm
    _ ≤ melMaxVal padded := melRawEntry_le_melMaxVal padded 0 798 (by omega) (by omega)

/-- The padded-stage output for a full buffer, as a mapped range. -/
theorem computeWhisperMelFromPadded_eq (padded : List ℝ) (hlen : padded.length = 128000) :
    computeWhisperMelFromPadded padded = (List.range 64000).map
      (fun idx => melOutEntry padded (idx / 800) (idx % 800)) := by
  unfold computeWhisperMelFromPadded
  rw [if_pos hlen]

/-- The normalised buffer always has exactly 128000 cells. -/
theorem normalizedPadded_length (audio : List ℝ) :
    (normalizedPadded audio).length = 128000 := by
  unfold normalizedPadded
  dsimp only
  split_ifs <;> rw [List.length_map, List.length_range]

/-- For non-empty input, computeWhisperMel is the padded-stage
computation of the normalised buffer. -/
theorem computeWhisperMel_eq (audio : List ℝ) (h : audio ≠ []) :
    computeWhisperMel audio = computeWhisperMelFromPadded (normalizedPadded audio) := by
  unfold computeWhisperMel
  rw [if_neg (fun hc => h (List.length_eq_zero.mp hc))]

/-- Each final cell sits between (maxVal-4)/4 and (maxVal+4)/4. -/
theorem melOutEntry_bounds (padded : List ℝ) (m t : ℕ) (hm : m < 80) (ht : t < 800) :
    (melMaxVal padded - 4) / 4 ≤ melOutEntry padded m t
    ∧ melOutEntry padded m t ≤ (melMaxVal padded + 4) / 4 := by
  unfold melOutEntry
  constructor
  · have h := le_max_right (melRawEntry padded m t) (melMaxVal padded - 8)
    linarith
  · have h1 : melRawEntry padded m t ≤ melMaxVal padded :=
      melRawEntry_le_melMaxVal padded m t hm ht
    have h2 : max (melRawEntry padded m t) (melMaxVal padded - 8) ≤ melMaxVal padded :=
      max_le h1 (by linarith)
    linarith

/-! ## C10 -/

/-- C10: frame columns beyond the last complete 400-sample window are
never written and stay zero; those zeros participate in the global
maximum, so the pre-compression maximum M of any non-empty input is ≥ 0;
consequently every final matrix value is ≥ (M-4)/4 ≥ -1. -/
theorem c10_matrix_max_nonneg (audio : List ℝ) (h : audio ≠ []) :
    (∀ m t, ¬ t * 160 + 400 ≤ (normalizedPadded audio).length →
        melRawEntry (normalizedPadded audio) m t = 0)
    ∧ 0 ≤ melMaxVal (normalizedPadded audio)
    ∧ ∀ x ∈ computeWhisperMel audio,
        (melMaxVal (normalizedPadded audio) - 4) / 4 ≤ x ∧ (-1 : ℝ) ≤ x := by
  have hlen := normalizedPadded_length audio
  have hnn := melMaxVal_nonneg _ hlen
  refine ⟨fun m t ht => melRawEntry_unwritten _ m t ht, hnn, ?_⟩
  intro x hx
  rw [computeWhisperMel_eq audio h, computeWhisperMelFromPadded_eq _ hlen] at hx
  obtain ⟨idx, hidx, rfl⟩ := List.mem_map.mp hx
  have hi := List.mem_range.mp hidx
  have hb := (melOutEntry_bounds (normalizedPadded audio) (idx / 800) (idx % 800)
    (by omega) (by omega)).1
  exact ⟨hb, by linarith⟩

/-- Witness for C10 at the one-sample input [0]. -/
theorem c10_matrix_max_nonneg_witness :
    ([(0:ℝ)] ≠ []) ∧ 0 ≤ melMaxVal (normalizedPadded [(0:ℝ)]) :=
  ⟨by simp, (c10_matrix_max_nonneg [(0:ℝ)] (by simp)).2.1⟩

/-! ## C3: truncation and normalisation -/

/-- The truncation always equals dropping all but the last 128000
samples (the drop count is zero for short inputs). -/
theorem truncated_eq_drop (audio : List ℝ) :
    truncated audio = audio.drop (audio.length - 128000) := by
  unfold truncated
  split_ifs with h
  · rfl
  · rw [Nat.sub_eq_zero_of_le (not_lt.mp h), List.drop_zero]

/-- At most the final 128000 samples are kept. -/
theorem truncated_length (audio : List ℝ) :
    (truncated audio).length = min audio.length 128000 := by
  unfold truncated
  split_ifs with h
  · rw [List.length_drop]
    omega
  · omega

/-- The variance clamp of the source is a max with the 1e-7 floor. -/
theorem clampedVariance_eq_max (a : List ℝ) :
    clampedVariance a = max (audioVariance a) 1e-7 := by
  unfold clampedVariance
  rcases lt_or_le (audioVariance a) 1e-7 with h | h
  · rw [if_pos h, max_eq_right h.le]
  · rw [if_neg (not_lt.mpr h), max_eq_left h]

/-- C3: for every non-empty input the extractor keeps at most the final
128000 samples (a drop of the earlier prefix), computes mean and
population variance over those kept (pre-padding) samples, clamps the
variance at the floor 1e-7, normalises each kept sample as
(x - mean)/sqrt(clamped variance), and places the result right-aligned in
a 128000-cell buffer whose left part is zero when the input was shorter
than 128000 samples. -/
theorem c3_normalization (audio : List ℝ) (h : audio ≠ []) :
    computeWhisperMel audio = computeWhisperMelFromPadded (normalizedPadded audio)
    ∧ truncated audio = audio.drop (audio.length - 128000)
    ∧ (truncated audio).length = min audio.length 128000
    ∧ (normalizedPadded audio).length = 128000
    ∧ ∀ i, i < 128000 →
        (normalizedPadded audio).getD i 0
          = if i < 128000 - (truncated audio).length then 0
            else ((truncated audio).getD (i - (128000 - (truncated audio).length)) 0
                - audioMean (truncated audio))
              / Real.sqrt (max (audioVariance (truncated audio)) 1e-7) := by
  refine ⟨computeWhisperMel_eq audio h, truncated_eq_drop audio, truncated_length audio,
    normalizedPadded_length audio, ?_⟩
  intro i hi
  unfold normalizedPadded
  dsimp only
  rw [← clampedVariance_eq_max]
  rcases le_or_lt 128000 (truncated audio).length with hlen | hlen
  · rw [if_pos hlen, getD_map_range 128000 _ i hi]
    have hz : 128000 - (truncated audio).length = 0 := by omega
    rw [hz, if_neg (by omega), Nat.sub_zero]
    unfold audioScale
    rw [mul_one_div]
  · rw [if_neg (by omega), getD_map_range 128000 _ i hi]
    unfold audioScale
    by_cases hip : i < 128000 - (truncated audio).length
    · rw [if_pos hip, if_pos hip]
    · rw [if_neg hip, if_neg hip, mul_one_div]

/-- Witness for C3 at the one-sample input [0]. -/
theorem c3_normalization_witness :
    ([(0:ℝ)] ≠ []) ∧ truncated [(0:ℝ)] = [(0:ℝ)].drop ([(0:ℝ)].length - 128000) :=
  ⟨by simp, (c3_normalization [(0:ℝ)] (by simp)).2.1⟩

/-! ## C2: the DFT columns -/

/-- The power spectrum the spec prescribes for the frame at hop offset
t*160: Hann-window 400 samples, take the k-th DFT coefficient, and return
magnitude squared normalised by N^2 (N = 400). -/
noncomputable def specPowerSpectrum (padded : List ℝ) (t k : ℕ) : ℝ :=
  ((∑ i in Finset.range 400, padded.getD (t * 160 + i) 0 * hannWindow i *
      Real.cos (-2 * Real.pi * k * i / 400)) ^ 2
    + (∑ i in Finset.range 400, padded.getD (t * 160 + i) 0 * hannWindow i *
      Real.sin (-2 * Real.pi * k * i / 400)) ^ 2) / (400 * 400)

/-- The column value the spec prescribes: project the 201-bin power
spectrum through the mel filterbank, clamp at 1e-10, take log10. -/
noncomputable def specDftColumn (padded : List ℝ) (m t : ℕ) : ℝ :=
  Real.logb 10
    (max (∑ k in Finset.range 201, melFilter m k * specPowerSpectrum padded t k) 1e-10)

/-- The filtered source value is the spec's filtered DFT power. -/
theorem melVal_eq_spec (padded : List ℝ) (m t : ℕ) :
    melVal padded m t
      = ∑ k in Finset.range 201, melFilter m k * specPowerSpectrum padded t k := by
  unfold melVal realFFTPower fftRe fftIm frameBuf specPowerSpectrum
  refine Finset.sum_congr rfl fun k hk => ?_
  push_cast
  ring

/-- C2 (amended): the output matrix still has 80 x 800 = 64000 cells, but
only the 798 columns t with t*160+400 ≤ 128000 are computed from the
windowed DFT of their frame (followed by mel projection, clamp and
log10); the final two columns are never written and stay zero before
compression. -/
theorem c2_amended_dft_columns (padded : List ℝ) (hlen : padded.length = 128000) :
    (computeWhisperMelFromPadded padded).length = 64000
    ∧ ∀ m t, t < 800 →
        melRawEntry padded m t = if t < 798 then specDftColumn padded m t else 0 := by
  constructor
  · rw [computeWhisperMelFromPadded_eq padded hlen, List.length_map, List.length_range]
  · intro m t ht
    by_cases h798 : t < 798
    · rw [if_pos h798]
      unfold melRawEntry specDftColumn
      rw [if_pos (by rw [hlen]; omega), melVal_eq_spec]
    · rw [if_neg h798]
      exact melRawEntry_unwritten padded m t (by rw [hlen]; omega)

/-- Witness for the amended C2 at the all-zero buffer. -/
theorem c2_amended_dft_columns_witness :
    ((List.replicate 128000 (0:ℝ)).length = 128000)
    ∧ (computeWhisperMelFromPadded (List.replicate 128000 (0:ℝ))).length = 64000 :=
  ⟨List.length_replicate .., (c2_amended_dft_columns (List.replicate 128000 (0:ℝ))
    (List.length_replicate ..)).1⟩

/-- logb base 10 of an integer power of 10. -/
theorem logb_ten_zpow (n : ℤ) : Real.logb 10 ((10:ℝ) ^ n) = n := by
  rw [← Real.rpow_intCast, Real.logb_rpow (by norm_num) (by norm_num)]

/-- getD on the all-zero buffer is zero. -/
theorem getD_zeros (j : ℕ) : (List.replicate 128000 (0:ℝ)).getD j 0 = 0 := by
  rw [List.getD_eq_getElem?_getD, List.getElem?_replicate]
  split_ifs <;> rfl

/-- The spec power spectrum of the all-zero buffer vanishes. -/
theorem specPowerSpectrum_zeros (t k : ℕ) :
    specPowerSpectrum (List.replicate 128000 (0:ℝ)) t k = 0 := by
  unfold specPowerSpectrum
  rw [Finset.sum_eq_zero fun i _ => by rw [getD_zeros, zero_mul, zero_mul],
    Finset.sum_eq_zero fun i _ => by rw [getD_zeros, zero_mul, zero_mul]]
  norm_num

/-- Counterexample to C2 as stated: on the all-zero 128000-sample buffer,
the spec's windowed-DFT recipe for column 798 yields -10 (log10 of the
1e-10 clamp of zero energy), but the source never computes that column:
its pre-compression value is the initialisation zero. -/
theorem c2_counterexample_column_798 :
    melRawEntry (List.replicate 128000 (0:ℝ)) 0 798 = 0
    ∧ specDftColumn (List.replicate 128000 (0:ℝ)) 0 798 = -10
    ∧ melRawEntry (List.replicate 128000 (0:ℝ)) 0 798
        ≠ specDftColumn (List.replicate 128000 (0:ℝ)) 0 798 := by
  have h1 : melRawEntry (List.replicate 128000 (0:ℝ)) 0 798 = 0 :=
    melRawEntry_unwritten _ 0 798 (by rw [List.length_replicate]; omega)
  have h2 : specDftColumn (List.replicate 128000 (0:ℝ)) 0 798 = -10 := by
    unfold specDftColumn
    rw [Finset.sum_eq_zero fun k _ => by rw [specPowerSpectrum_zeros, mul_zero]]
    rw [max_eq_right (by norm_num)]
    rw [show (1e-10 : ℝ) = (10:ℝ) ^ (-10 : ℤ) by norm_num]
    rw [logb_ten_zpow]
    norm_num
  refine ⟨h1, h2, ?_⟩
  rw [h1, h2]
  norm_num

/-! ## Trigonometric sums for the DFT of the impulse-train counterexample -/


/-- Sum of cos(2*pi*m*i/400) over i < 400 vanishes when 400 does not divide m. -/
theorem sum_exp_root (m : ℤ) (hm : ¬ (400:ℤ) ∣ m) :
    ∑ i in Finset.range 400,
      Complex.exp (((2 * Real.pi * m * i / 400 : ℝ) : ℂ) * Complex.I) = 0 := by
  have key : ∀ i : ℕ, Complex.exp (((2 * Real.pi * m * i / 400 : ℝ) : ℂ) * Complex.I)
      = Complex.exp (((2 * Real.pi * m / 400 : ℝ) : ℂ) * Complex.I) ^ i := by
    intro i
    rw [← Complex.exp_nat_mul]
    congr 1
    push_cast
    ring
  rw [Finset.sum_congr rfl fun i _ => key i]
  have hz1 : Complex.exp (((2 * Real.pi * m / 400 : ℝ) : ℂ) * Complex.I) ≠ 1 := by
    intro h1
    rw [Complex.exp_eq_one_iff] at h1
    obtain ⟨n, hn⟩ := h1
    have h2 : ((2 * Real.pi * m / 400 : ℝ) : ℂ) = (((n : ℝ) * (2 * Real.pi) : ℝ) : ℂ) := by
      apply mul_right_cancel₀ Complex.I_ne_zero
      rw [hn]
      push_cast
      ring
    have h3 : 2 * Real.pi * (m:ℝ) / 400 = (n:ℝ) * (2 * Real.pi) := Complex.ofReal_inj.mp h2
    have h4 : 2 * Real.pi * ((m:ℝ) - 400 * n) = 0 := by ring_nf; ring_nf at h3; linarith
    have h5 : (m:ℝ) - 400 * n = 0 := by
      rcases mul_eq_zero.mp h4 with h | h
      · exact absurd h (by positivity)
      · exact h
    have h6 : m = 400 * n := by
      have : (m:ℝ) = 400 * (n:ℝ) := by linarith
      exact_mod_cast this
    exact hm ⟨n, h6⟩
  rw [geom_sum_eq hz1]
  have hz400 : Complex.exp (((2 * Real.pi * m / 400 : ℝ) : ℂ) * Complex.I) ^ 400 = 1 := by
    rw [← Complex.exp_nat_mul]
    rw [show ((400:ℕ):ℂ) * (((2 * Real.pi * m / 400 : ℝ) : ℂ) * Complex.I)
        = (m:ℂ) * (2 * (Real.pi:ℂ) * Complex.I) by push_cast; ring]
    exact Complex.exp_int_mul_two_pi_mul_I m
  rw [hz400]
  simp

theorem sum_cos_root (m : ℤ) (hm : ¬ (400:ℤ) ∣ m) :
    ∑ i in Finset.range 400, Real.cos (2 * Real.pi * m * i / 400) = 0 := by
  have h := congrArg Complex.re (sum_exp_root m hm)
  rw [Complex.re_sum] at h
  rw [Finset.sum_congr rfl fun i _ => (Complex.exp_ofReal_mul_I_re _)] at h
  simpa using h

theorem sum_sin_root (m : ℤ) :
    ∑ i in Finset.range 400, Real.sin (2 * Real.pi * m * i / 400) = 0 := by
  by_cases hm : (400:ℤ) ∣ m
  · obtain ⟨q, rfl⟩ := hm
    rw [Finset.sum_eq_zero]
    intro i _
    rw [show 2 * Real.pi * ((400 * q : ℤ):ℝ) * i / 400 = ((q * i : ℤ):ℝ) * (2 * Real.pi) by
      push_cast; ring]
    rw [show ((q * i : ℤ):ℝ) * (2 * Real.pi) = (2 * (q * i) : ℤ) * Real.pi by push_cast; ring]
    exact Real.sin_int_mul_pi _
  · have h := congrArg Complex.im (sum_exp_root m hm)
    rw [Complex.im_sum] at h
    rw [Finset.sum_congr rfl fun i _ => (Complex.exp_ofReal_mul_I_im _)] at h
    simpa using h


theorem window_cos_sum (k : ℕ) (hk : k ≤ 200) :
    ∑ i in Finset.range 400, hannWindow i * Real.cos (2 * Real.pi * k * i / 400)
      = if k = 0 then 200 else if k = 1 then -100 else 0 := by
  have hterm : ∀ i ∈ Finset.range 400, hannWindow i * Real.cos (2 * Real.pi * k * i / 400)
      = 0.5 * Real.cos (2 * Real.pi * (((k:ℤ)):ℝ) * i / 400)
        - 0.25 * Real.cos (2 * Real.pi * (((k:ℤ)+1:ℤ):ℝ) * i / 400)
        - 0.25 * Real.cos (2 * Real.pi * (((k:ℤ)-1:ℤ):ℝ) * i / 400) := by
    intro i _
    unfold hannWindow
    have e1 : 2 * Real.pi * (((k:ℤ)+1:ℤ):ℝ) * i / 400
        = 2 * Real.pi * k * i / 400 + 2 * Real.pi * i / 400 := by push_cast; ring
    have e2 : 2 * Real.pi * (((k:ℤ)-1:ℤ):ℝ) * i / 400
        = 2 * Real.pi * k * i / 400 - 2 * Real.pi * i / 400 := by push_cast; ring
    rw [e1, e2, Real.cos_add, Real.cos_sub]
    push_cast
    ring
  rw [Finset.sum_congr rfl hterm, Finset.sum_sub_distrib, Finset.sum_sub_distrib,
    ← Finset.mul_sum, ← Finset.mul_sum, ← Finset.mul_sum]
  have hS0 : ∑ i in Finset.range 400, Real.cos (2 * Real.pi * (((0:ℤ)):ℝ) * i / 400) = 400 := by
    have h1 : ∀ i ∈ Finset.range 400,
        Real.cos (2 * Real.pi * (((0:ℤ)):ℝ) * i / 400) = 1 := by
      intro i _
      rw [show 2 * Real.pi * (((0:ℤ)):ℝ) * i / 400 = 0 by push_cast; ring]
      exact Real.cos_zero
    rw [Finset.sum_congr rfl h1, Finset.sum_const, Finset.card_range]
    norm_num
  by_cases h0 : k = 0
  · subst h0
    rw [if_pos rfl]
    rw [show ((0:ℕ):ℤ) = (0:ℤ) by norm_num]
    rw [hS0]
    rw [sum_cos_root ((0:ℤ)+1) (by omega), sum_cos_root ((0:ℤ)-1) (by omega)]
    norm_num
  by_cases h1 : k = 1
  · subst h1
    rw [if_neg h0, if_pos rfl]
    rw [sum_cos_root ((1:ℕ):ℤ) (by omega), sum_cos_root (((1:ℕ):ℤ)+1) (by omega)]
    rw [show (((1:ℕ):ℤ)-1:ℤ) = (0:ℤ) by norm_num, hS0]
    norm_num
  · rw [if_neg h0, if_neg h1]
    have hk2 : 2 ≤ k := by omega
    rw [sum_cos_root ((k:ℕ):ℤ) (by omega), sum_cos_root (((k:ℕ):ℤ)+1) (by omega),
      sum_cos_root (((k:ℕ):ℤ)-1) (by omega)]
    norm_num

theorem window_sin_sum (k : ℕ) :
    ∑ i in Finset.range 400, hannWindow i * Real.sin (2 * Real.pi * k * i / 400) = 0 := by
  have hterm : ∀ i ∈ Finset.range 400, hannWindow i * Real.sin (2 * Real.pi * k * i / 400)
      = 0.5 * Real.sin (2 * Real.pi * (((k:ℤ)):ℝ) * i / 400)
        - 0.25 * Real.sin (2 * Real.pi * (((k:ℤ)+1:ℤ):ℝ) * i / 400)
        - 0.25 * Real.sin (2 * Real.pi * (((k:ℤ)-1:ℤ):ℝ) * i / 400) := by
    intro i _
    unfold hannWindow
    have e1 : 2 * Real.pi * (((k:ℤ)+1:ℤ):ℝ) * i / 400
        = 2 * Real.pi * k * i / 400 + 2 * Real.pi * i / 400 := by push_cast; ring
    have e2 : 2 * Real.pi * (((k:ℤ)-1:ℤ):ℝ) * i / 400
        = 2 * Real.pi * k * i / 400 - 2 * Real.pi * i / 400 := by push_cast; ring
    rw [e1, e2, Real.sin_add, Real.sin_sub]
    push_cast
    ring
  rw [Finset.sum_congr rfl hterm, Finset.sum_sub_distrib, Finset.sum_sub_distrib,
    ← Finset.mul_sum, ← Finset.mul_sum, ← Finset.mul_sum]
  rw [sum_sin_root ((k:ℕ):ℤ), sum_sin_root (((k:ℕ):ℤ)+1), sum_sin_root (((k:ℕ):ℤ)-1)]
  norm_num

theorem cos_4pi5 : Real.cos (4 * Real.pi / 5) = -(1 + Real.sqrt 5) / 4 := by
  rw [show (4 * Real.pi / 5) = Real.pi - Real.pi / 5 by ring, Real.cos_pi_sub,
    Real.cos_pi_div_five]
  ring

theorem cos_2pi5 : Real.cos (2 * Real.pi / 5) = (Real.sqrt 5 - 1) / 4 := by
  rw [show (2 * Real.pi / 5) = 2 * (Real.pi / 5) by ring, Real.cos_two_mul,
    Real.cos_pi_div_five]
  have h5 : Real.sqrt 5 ^ 2 = 5 := Real.sq_sqrt (by norm_num)
  nlinarith [h5]

theorem cos_8pi5 : Real.cos (8 * Real.pi / 5) = (Real.sqrt 5 - 1) / 4 := by
  rw [show (8 * Real.pi / 5) = 2 * Real.pi - 2 * Real.pi / 5 by ring, Real.cos_two_pi_sub,
    cos_2pi5]

theorem cos_12pi5 : Real.cos (12 * Real.pi / 5) = (Real.sqrt 5 - 1) / 4 := by
  rw [show (12 * Real.pi / 5) = 2 * Real.pi / 5 + 2 * Real.pi by ring, Real.cos_add_two_pi,
    cos_2pi5]

theorem sin_sq_4pi5 : Real.sin (4 * Real.pi / 5) ^ 2 = (10 - 2 * Real.sqrt 5) / 16 := by
  have h := Real.sin_sq_add_cos_sq (4 * Real.pi / 5)
  rw [cos_4pi5] at h
  have h5 : Real.sqrt 5 ^ 2 = 5 := Real.sq_sqrt (by norm_num)
  nlinarith [h, h5]

theorem sin_sq_8pi5 : Real.sin (8 * Real.pi / 5) ^ 2 = (10 + 2 * Real.sqrt 5) / 16 := by
  have h := Real.sin_sq_add_cos_sq (8 * Real.pi / 5)
  rw [cos_8pi5] at h
  have h5 : Real.sqrt 5 ^ 2 = 5 := Real.sq_sqrt (by norm_num)
  nlinarith [h, h5]

theorem sin_prod_45_85 :
    Real.sin (4 * Real.pi / 5) * Real.sin (8 * Real.pi / 5) = -(Real.sqrt 5) / 4 := by
  have h1 := Real.cos_sub (4 * Real.pi / 5) (8 * Real.pi / 5)
  have h2 := Real.cos_add (4 * Real.pi / 5) (8 * Real.pi / 5)
  rw [show 4 * Real.pi / 5 - 8 * Real.pi / 5 = -(4 * Real.pi / 5) by ring, Real.cos_neg,
    cos_4pi5] at h1
  rw [show 4 * Real.pi / 5 + 8 * Real.pi / 5 = 12 * Real.pi / 5 by ring, cos_12pi5,
    cos_4pi5] at h2
  linarith

theorem hann160_val : hannWindow 160 = (5 + Real.sqrt 5) / 8 := by
  unfold hannWindow
  rw [show 2 * Real.pi * ((160:ℕ):ℝ) / 400 = 4 * Real.pi / 5 by push_cast; ring, cos_4pi5]
  ring

theorem hann320_val : hannWindow 320 = (5 - Real.sqrt 5) / 8 := by
  unfold hannWindow
  rw [show 2 * Real.pi * ((320:ℕ):ℝ) / 400 = 8 * Real.pi / 5 by push_cast; ring, cos_8pi5]
  ring

/-! ## The impulse-train input refuting the exact-range claim -/

/-- Bridge between list sums over mapped ranges and Finset sums. -/
theorem sum_map_range (n : ℕ) (f : ℕ → ℝ) :
    ((List.range n).map f).sum = ∑ i in Finset.range n, f i := by
  induction n with
  | zero => rfl
  | succ n ih =>
    rw [List.range_succ, List.map_append, List.sum_append, Finset.sum_range_succ, ih]
    simp

/-- Sum of a 160-periodic two-valued pattern over a multiple of 160. -/
theorem sum_ite_mod160 (a : ℕ) (A B : ℝ) :
    ∑ i in Finset.range (a * 160), (if i % 160 = 0 then A else B)
      = a * A + (a * 159) * B := by
  induction a with
  | zero => simp
  | succ n ih =>
    rw [show (n + 1) * 160 = n * 160 + 160 by ring, Finset.sum_range_add, ih]
    have hx : ∀ x ∈ Finset.range 160, (if (n * 160 + x) % 160 = 0 then A else B)
        = B + (if x = 0 then A - B else 0) := by
      intro x hx
      have hlt := Finset.mem_range.mp hx
      have hmod : (n * 160 + x) % 160 = x := by omega
      rw [hmod]
      split_ifs <;> ring
    rw [Finset.sum_congr rfl hx, Finset.sum_add_distrib, Finset.sum_const,
      Finset.card_range, Finset.sum_ite_eq' (Finset.range 160) 0 (fun _ => A - B)]
    rw [if_pos (Finset.mem_range.mpr (by omega))]
    push_cast
    ring

/-- The 160-periodic unit impulse train of length 128000: one nonzero
sample at every hop offset, so every frame sees broadband energy. -/
noncomputable def cexAudio : List ℝ :=
  (List.range 128000).map (fun i => if i % 160 = 0 then (1:ℝ) else 0)

theorem cexAudio_length : cexAudio.length = 128000 := by
  unfold cexAudio
  rw [List.length_map, List.length_range]

theorem cexAudio_ne_nil : cexAudio ≠ [] := by
  intro hc
  have h := congrArg List.length hc
  rw [cexAudio_length] at h
  exact absurd h (by norm_num)

theorem truncated_cex : truncated cexAudio = cexAudio := by
  unfold truncated
  rw [if_neg (show ¬ cexAudio.length > 128000 by rw [cexAudio_length]; omega)]

theorem cexAudio_mean : audioMean cexAudio = 1 / 160 := by
  unfold audioMean cexAudio
  rw [sum_map_range, List.length_map, List.length_range]
  rw [show (128000:ℕ) = 800 * 160 by norm_num]
  rw [sum_ite_mod160 800 1 0]
  norm_num

theorem cexAudio_variance : audioVariance cexAudio = 159 / 25600 := by
  unfold audioVariance
  rw [cexAudio_mean]
  unfold cexAudio
  rw [List.map_map, sum_map_range, List.length_map, List.length_range]
  have hbody : ∀ i ∈ Finset.range 128000,
      ((fun v => (v - 1/160) * (v - 1/160)) ∘ fun i => if i % 160 = 0 then (1:ℝ) else 0) i
        = if i % 160 = 0 then ((159:ℝ)/160) * (159/160) else (1/160) * (1/160) := by
    intro i _
    by_cases h : i % 160 = 0
    · rw [Function.comp_apply, if_pos h, if_pos h]
      norm_num
    · rw [Function.comp_apply, if_neg h, if_neg h]
      norm_num
  rw [Finset.sum_congr rfl hbody]
  rw [show (128000:ℕ) = 800 * 160 by norm_num]
  rw [sum_ite_mod160 800 _ _]
  norm_num

theorem cex_clampedVariance : clampedVariance cexAudio = 159 / 25600 := by
  unfold clampedVariance
  rw [cexAudio_variance, if_neg (by norm_num)]

theorem cexScale_pos : 0 < audioScale cexAudio := by
  unfold audioScale
  rw [cex_clampedVariance]
  positivity

theorem cexScale_sq : audioScale cexAudio * audioScale cexAudio = 25600 / 159 := by
  unfold audioScale
  rw [cex_clampedVariance, div_mul_div_comm, one_mul,
    Real.mul_self_sqrt (by norm_num : (0:ℝ) ≤ 159/25600)]
  norm_num

/-- Every cell of the normalised impulse-train buffer. -/
theorem cexPadded_getD (j : ℕ) (hj : j < 128000) :
    (normalizedPadded cexAudio).getD j 0
      = ((if j % 160 = 0 then (1:ℝ) else 0) - audioMean cexAudio) * audioScale cexAudio := by
  unfold normalizedPadded
  dsimp only
  rw [truncated_cex]
  rw [if_pos (le_of_eq cexAudio_length.symm)]
  rw [getD_map_range 128000 _ j hj]
  have hv : cexAudio.getD j 0 = if j % 160 = 0 then (1:ℝ) else 0 := by
    unfold cexAudio
    rw [getD_map_range 128000 _ j hj]
  rw [hv]

/-- The impulse positions among the 400 in-frame indices. -/
theorem impulse_filter :
    (Finset.range 400).filter (fun i => i % 160 = 0) = {0, 160, 320} := by
  decide

theorem hannWindow_zero : hannWindow 0 = 0 := by
  unfold hannWindow
  rw [show 2 * Real.pi * ((0:ℕ):ℝ) / 400 = 0 by push_cast; ring, Real.cos_zero]
  ring

/-- Real part of the DFT of any written impulse-train frame. -/
theorem cex_fft_re (t k : ℕ) (ht : t ≤ 797) (hk : k ≤ 200) :
    fftRe (frameBuf (normalizedPadded cexAudio) t) 400 k
      = audioScale cexAudio * (hannWindow 160 * Real.cos (2 * Real.pi * k * 160 / 400)
          + hannWindow 320 * Real.cos (2 * Real.pi * k * 320 / 400))
        - audioMean cexAudio * audioScale cexAudio
          * (if k = 0 then (200:ℝ) else if k = 1 then -100 else 0) := by
  unfold fftRe frameBuf
  simp only [Nat.cast_ofNat]
  have hterm : ∀ i ∈ Finset.range 400,
      (normalizedPadded cexAudio).getD (t * 160 + i) 0 * hannWindow i
          * Real.cos (-2 * Real.pi * k * i / 400)
        = (if i % 160 = 0 then audioScale cexAudio * hannWindow i
            * Real.cos (2 * Real.pi * k * i / 400) else 0)
          - audioMean cexAudio * audioScale cexAudio
            * (hannWindow i * Real.cos (2 * Real.pi * k * i / 400)) := by
    intro i hi
    have hi400 := Finset.mem_range.mp hi
    have hjlt : t * 160 + i < 128000 := by omega
    rw [cexPadded_getD (t * 160 + i) hjlt,
      show (t * 160 + i) % 160 = i % 160 by omega,
      show Real.cos (-2 * Real.pi * k * i / 400) = Real.cos (2 * Real.pi * k * i / 400) by
        rw [show (-2 * Real.pi * (k:ℝ) * i / 400) = -(2 * Real.pi * k * i / 400) by ring,
          Real.cos_neg]]
    split_ifs <;> ring
  rw [Finset.sum_congr rfl hterm, Finset.sum_sub_distrib, ← Finset.mul_sum,
    window_cos_sum k hk, ← Finset.sum_filter, impulse_filter]
  rw [Finset.sum_insert (by decide), Finset.sum_insert (by decide), Finset.sum_singleton]
  rw [hannWindow_zero]
  push_cast
  ring

/-- Imaginary part of the DFT of any written impulse-train frame. -/
theorem cex_fft_im (t k : ℕ) (ht : t ≤ 797) (hk : k ≤ 200) :
    fftIm (frameBuf (normalizedPadded cexAudio) t) 400 k
      = -(audioScale cexAudio * (hannWindow 160 * Real.sin (2 * Real.pi * k * 160 / 400)
          + hannWindow 320 * Real.sin (2 * Real.pi * k * 320 / 400))) := by
  unfold fftIm frameBuf
  simp only [Nat.cast_ofNat]
  have hterm : ∀ i ∈ Finset.range 400,
      (normalizedPadded cexAudio).getD (t * 160 + i) 0 * hannWindow i
          * Real.sin (-2 * Real.pi * k * i / 400)
        = (if i % 160 = 0 then -(audioScale cexAudio * hannWindow i
            * Real.sin (2 * Real.pi * k * i / 400)) else 0)
          + audioMean cexAudio * audioScale cexAudio
            * (hannWindow i * Real.sin (2 * Real.pi * k * i / 400)) := by
    intro i hi
    have hi400 := Finset.mem_range.mp hi
    have hjlt : t * 160 + i < 128000 := by omega
    rw [cexPadded_getD (t * 160 + i) hjlt,
      show (t * 160 + i) % 160 = i % 160 by omega,
      show Real.sin (-2 * Real.pi * k * i / 400) = -Real.sin (2 * Real.pi * k * i / 400) by
        rw [show (-2 * Real.pi * (k:ℝ) * i / 400) = -(2 * Real.pi * k * i / 400) by ring,
          Real.sin_neg]]
    split_ifs <;> ring
  rw [Finset.sum_congr rfl hterm, Finset.sum_add_distrib, ← Finset.mul_sum,
    window_sin_sum k, ← Finset.sum_filter, impulse_filter]
  rw [Finset.sum_insert (by decide), Finset.sum_insert (by decide), Finset.sum_singleton]
  rw [hannWindow_zero]
  push_cast
  ring

/-- Pythagoras for a two-tone combination. -/
theorem sumsq_identity (w1 w2 A B : ℝ) :
    (w1 * Real.cos A + w2 * Real.cos B) ^ 2 + (w1 * Real.sin A + w2 * Real.sin B) ^ 2
      = w1 ^ 2 + w2 ^ 2 + 2 * w1 * w2 * Real.cos (A - B) := by
  rw [Real.cos_sub]
  have h1 := Real.sin_sq_add_cos_sq A
  have h2 := Real.sin_sq_add_cos_sq B
  linear_combination (w1 ^ 2) * h1 + (w2 ^ 2) * h2

theorem sqrt5_lb : 2.2 ≤ Real.sqrt 5 := by
  nlinarith [Real.sq_sqrt (show (0:ℝ) ≤ 5 by norm_num), Real.sqrt_nonneg 5]

theorem sqrt5_ub : Real.sqrt 5 ≤ 2.3 := by
  nlinarith [Real.sq_sqrt (show (0:ℝ) ≤ 5 by norm_num), Real.sqrt_nonneg 5]

/-- Bin 0 of every written impulse-train frame carries no power: the
normalised frame has zero weighted mean. -/
theorem cex_power_zero (t : ℕ) (ht : t ≤ 797) :
    realFFTPower (frameBuf (normalizedPadded cexAudio) t) 400 0 = 0 := by
  unfold realFFTPower
  rw [cex_fft_re t 0 ht (by omega), cex_fft_im t 0 ht (by omega)]
  rw [if_pos rfl]
  rw [show 2 * Real.pi * ((0:ℕ):ℝ) * 160 / 400 = 0 by push_cast; ring,
    show 2 * Real.pi * ((0:ℕ):ℝ) * 320 / 400 = 0 by push_cast; ring,
    Real.cos_zero, Real.sin_zero, hann160_val, hann320_val, cexAudio_mean]
  simp only [Nat.cast_ofNat]
  field_simp
  ring

/-- Bin 1 of every written impulse-train frame, exactly. -/
theorem cex_power_one (t : ℕ) (ht : t ≤ 797) :
    realFFTPower (frameBuf (normalizedPadded cexAudio) t) 400 1
      = (25 - 10 * Real.sqrt 5) / 63600 := by
  unfold realFFTPower
  rw [cex_fft_re t 1 ht (by omega), cex_fft_im t 1 ht (by omega)]
  rw [if_neg (by omega), if_pos rfl]
  rw [show 2 * Real.pi * ((1:ℕ):ℝ) * 160 / 400 = 4 * Real.pi / 5 by push_cast; ring,
    show 2 * Real.pi * ((1:ℕ):ℝ) * 320 / 400 = 8 * Real.pi / 5 by push_cast; ring,
    hann160_val, hann320_val, cos_4pi5, cos_8pi5, cexAudio_mean]
  simp only [Nat.cast_ofNat]
  have h5 : Real.sqrt 5 ^ 2 = 5 := Real.sq_sqrt (by norm_num)
  have hs2 := cexScale_sq
  have hsq1 := sin_sq_4pi5
  have hsq2 := sin_sq_8pi5
  have hpr := sin_prod_45_85
  have hre : audioScale cexAudio * ((5 + Real.sqrt 5) / 8 * (-(1 + Real.sqrt 5) / 4)
        + (5 - Real.sqrt 5) / 8 * ((Real.sqrt 5 - 1) / 4))
      - 1 / 160 * audioScale cexAudio * (-100) = 0 := by
    linear_combination (-(audioScale cexAudio) / 16) * h5
  have him2 : ((5 + Real.sqrt 5) / 8 * Real.sin (4 * Real.pi / 5)
        + (5 - Real.sqrt 5) / 8 * Real.sin (8 * Real.pi / 5)) ^ 2
      = (25 - 10 * Real.sqrt 5) / 64 := by
    linear_combination ((5 + Real.sqrt 5) ^ 2 / 64) * hsq1
      + ((5 - Real.sqrt 5) ^ 2 / 64) * hsq2
      + (2 * (5 + Real.sqrt 5) * (5 - Real.sqrt 5) / 64) * hpr
      + ((8 * Real.sqrt 5 - 20) / 1024) * h5
  rw [hre]
  linear_combination (((5 + Real.sqrt 5) / 8 * Real.sin (4 * Real.pi / 5)
      + (5 - Real.sqrt 5) / 8 * Real.sin (8 * Real.pi / 5)) ^ 2 / 160000) * hs2
    + (25600 / (159 * 160000)) * him2

/-- Bins 1 through 200 of every written impulse-train frame carry power
between (25-10*sqrt 5)/63600 and 1/636. -/
theorem cex_power_bounds (t k : ℕ) (ht : t ≤ 797) (hk1 : 1 ≤ k) (hk : k ≤ 200) :
    (25 - 10 * Real.sqrt 5) / 63600
        ≤ realFFTPower (frameBuf (normalizedPadded cexAudio) t) 400 k
    ∧ realFFTPower (frameBuf (normalizedPadded cexAudio) t) 400 k ≤ 1 / 636 := by
  by_cases hk1e : k = 1
  · subst hk1e
    rw [cex_power_one t ht]
    exact ⟨le_refl _, by linarith [Real.sqrt_nonneg 5]⟩
  · have hk2 : 2 ≤ k := by omega
    unfold realFFTPower
    rw [cex_fft_re t k ht hk, cex_fft_im t k ht hk]
    rw [if_neg (by omega), if_neg hk1e, mul_zero, sub_zero]
    have hbridge : ∀ X Y : ℝ,
        (audioScale cexAudio * X) * (audioScale cexAudio * X)
          + (-(audioScale cexAudio * Y)) * (-(audioScale cexAudio * Y))
        = (audioScale cexAudio * audioScale cexAudio) * (X ^ 2 + Y ^ 2) := by
      intro X Y
      ring
    rw [hbridge]
    have hiden := sumsq_identity (hannWindow 160) (hannWindow 320)
      (2 * Real.pi * k * 160 / 400) (2 * Real.pi * k * 320 / 400)
    rw [show (2 * Real.pi * (k:ℝ) * 160 / 400 - 2 * Real.pi * k * 320 / 400)
        = -(2 * Real.pi * k * 160 / 400) by ring, Real.cos_neg] at hiden
    rw [hiden, cexScale_sq, hann160_val, hann320_val]
    simp only [Nat.cast_ofNat]
    have h5 : Real.sqrt 5 ^ 2 = 5 := Real.sq_sqrt (by norm_num)
    have hB : ((5 + Real.sqrt 5) / 8) ^ 2 + ((5 - Real.sqrt 5) / 8) ^ 2
          + 2 * ((5 + Real.sqrt 5) / 8) * ((5 - Real.sqrt 5) / 8)
            * Real.cos (2 * Real.pi * k * 160 / 400)
        = 15 / 16 + 5 / 8 * Real.cos (2 * Real.pi * k * 160 / 400) := by
      linear_combination ((2 - 2 * Real.cos (2 * Real.pi * k * 160 / 400)) / 64) * h5
    rw [hB]
    have hcos1 : Real.cos (2 * Real.pi * k * 160 / 400) ≤ 1 := Real.cos_le_one _
    have hcos2 : -1 ≤ Real.cos (2 * Real.pi * k * 160 / 400) := Real.neg_one_le_cos _
    have h5b := sqrt5_lb
    constructor
    · rw [div_le_div_iff (by norm_num) (by norm_num)]
      nlinarith [hcos2, h5b]
    · rw [div_le_div_iff (by norm_num) (by norm_num)]
      nlinarith [hcos1]

/-! ## Filterbank bounds -/

theorem le_rpow_of_pow_le (a b : ℝ) (ha : 0 ≤ a) (h : a ^ (81:ℕ) ≤ b) :
    a ≤ b ^ ((1:ℝ)/81) := by
  have h1 : a = (a ^ (81:ℕ)) ^ ((1:ℝ)/81) := by
    rw [← Real.rpow_natCast a 81, ← Real.rpow_mul ha]
    norm_num
  rw [h1]
  exact Real.rpow_le_rpow (pow_nonneg ha 81) h (by norm_num)

theorem rpow_le_of_le_pow (a b : ℝ) (ha : 0 ≤ a) (hb : 0 ≤ b) (h : a ≤ b ^ (81:ℕ)) :
    a ^ ((1:ℝ)/81) ≤ b := by
  have h1 : b = (b ^ (81:ℕ)) ^ ((1:ℝ)/81) := by
    rw [← Real.rpow_natCast b 81, ← Real.rpow_mul hb]
    norm_num
  rw [h1]
  exact Real.rpow_le_rpow ha h (by norm_num)

/-- Closed form of the mel-spaced break frequencies: the composite
melToHz/hzToMel pair reduces to a geometric interpolation between 0 Hz
and 8000 Hz. -/
theorem hzPoint_eq (i : ℕ) : hzPoint i = 700 * ((87/7 : ℝ) ^ ((i:ℝ)/81) - 1) := by
  unfold hzPoint melToHz melPoint hzToMel
  rw [show (1:ℝ) + 0/700 = 1 by norm_num, show (1:ℝ) + 8000/700 = 87/7 by norm_num,
    Real.logb_one]
  rw [show (2595 * (0:ℝ) + (2595 * Real.logb 10 (87/7) - 2595 * 0) * (i:ℝ) / 81) / 2595
      = Real.logb 10 (87/7) * ((i:ℝ)/81) by ring]
  rw [Real.rpow_mul (by norm_num : (0:ℝ) ≤ 10),
    Real.rpow_logb (by norm_num) (by norm_num) (by norm_num)]

theorem hzPoint_zero : hzPoint 0 = 0 := by
  rw [hzPoint_eq]
  norm_num

theorem g81_ge : (361/350 : ℝ) ≤ (87/7:ℝ) ^ ((1:ℝ)/81) :=
  le_rpow_of_pow_le _ _ (by norm_num) (by norm_num)

theorem one_le_g_pow (j : ℕ) : 1 ≤ (87/7:ℝ) ^ ((j:ℝ)/81) := by
  rw [show (1:ℝ) = (87/7:ℝ) ^ (0:ℝ) by rw [Real.rpow_zero]]
  exact Real.rpow_le_rpow_of_exponent_le (by norm_num) (by positivity)

/-- Consecutive break frequencies factor through one geometric step. -/
theorem hzPoint_succ_sub (j : ℕ) : hzPoint (j+1) - hzPoint j
    = 700 * (87/7:ℝ) ^ ((j:ℝ)/81) * ((87/7:ℝ) ^ ((1:ℝ)/81) - 1) := by
  rw [hzPoint_eq, hzPoint_eq]
  push_cast
  rw [show ((j:ℝ)+1)/81 = (j:ℝ)/81 + 1/81 by ring,
    Real.rpow_add (by norm_num : (0:ℝ) < 87/7)]
  ring

/-- Every mel band edge-to-edge step spans at least 22 Hz. -/
theorem hzInc_ge (j : ℕ) : 22 ≤ hzPoint (j+1) - hzPoint j := by
  rw [hzPoint_succ_sub]
  have h1 := one_le_g_pow j
  have h2 := g81_ge
  nlinarith [mul_nonneg (sub_nonneg.mpr h1)
    (by linarith : (0:ℝ) ≤ (87/7:ℝ) ^ ((1:ℝ)/81) - 1)]

theorem hzPoint_mono {i j : ℕ} (h : i ≤ j) : hzPoint i ≤ hzPoint j := by
  rw [hzPoint_eq, hzPoint_eq]
  have hij : ((i:ℝ)/81) ≤ ((j:ℝ)/81) := by
    have : (i:ℝ) ≤ (j:ℝ) := Nat.cast_le.mpr h
    linarith
  have := Real.rpow_le_rpow_of_exponent_le (by norm_num : (1:ℝ) ≤ 87/7) hij
  linarith

theorem hz80_le : hzPoint 80 ≤ 7960 := by
  rw [hzPoint_eq]
  have key : (87/7:ℝ) ^ (((80:ℕ):ℝ)/81) = ((87/7:ℝ) ^ (80:ℕ)) ^ ((1:ℝ)/81) := by
    rw [← Real.rpow_natCast (87/7:ℝ) 80, ← Real.rpow_mul (by norm_num)]
    norm_num
  rw [key]
  have h := rpow_le_of_le_pow ((87/7:ℝ) ^ (80:ℕ)) (433/35) (by positivity) (by norm_num)
    (by norm_num)
  linarith

theorem binFreq_eq (k : ℕ) : binFreq k = 40 * k := by
  unfold binFreq
  ring

theorem melFilter_nonneg (m k : ℕ) : 0 ≤ melFilter m k := by
  unfold melFilter
  have h1 : 22 ≤ hzPoint (m+1) - hzPoint m := hzInc_ge m
  have h2 : 22 ≤ hzPoint (m+2) - hzPoint (m+1) := hzInc_ge (m+1)
  split_ifs with hc1 hc2
  · exact div_nonneg (by linarith [hc1.1]) (by linarith)
  · exact div_nonneg (by linarith [hc2.2]) (by linarith)
  · exact le_refl 0

theorem melFilter_le_one (m k : ℕ) : melFilter m k ≤ 1 := by
  unfold melFilter
  have h1 : 22 ≤ hzPoint (m+1) - hzPoint m := hzInc_ge m
  have h2 : 22 ≤ hzPoint (m+2) - hzPoint (m+1) := hzInc_ge (m+1)
  split_ifs with hc1 hc2
  · rw [div_le_one (by linarith)]
    linarith [hc1.2]
  · rw [div_le_one (by linarith)]
    linarith [hc2.1]
  · norm_num

/-- Every mel band has a DFT bin within 20 Hz of its peak, and the
triangle value there is at least 1/300. -/
theorem band_good_bin (m : ℕ) (hm : m < 80) :
    ∃ k : ℕ, 1 ≤ k ∧ k ≤ 200 ∧ 1/300 ≤ melFilter m k := by
  have hL : 22 ≤ hzPoint (m+1) - hzPoint m := hzInc_ge m
  have hR : 22 ≤ hzPoint (m+2) - hzPoint (m+1) := hzInc_ge (m+1)
  have hp1 : 22 ≤ hzPoint 1 := by
    have := hzInc_ge 0
    rw [hzPoint_zero] at this
    linarith
  have hp22 : 22 ≤ hzPoint (m+1) :=
    le_trans hp1 (hzPoint_mono (by omega : 1 ≤ m+1))
  have hp80 : hzPoint (m+1) ≤ 7960 :=
    le_trans (hzPoint_mono (by omega : m+1 ≤ 80)) hz80_le
  set p := hzPoint (m+1) with hpdef
  have hx0 : (0:ℝ) ≤ p / 40 + 1/2 := by linarith
  set k0 : ℕ := ⌊p / 40 + 1/2⌋₊ with hk0def
  have hfl : (k0:ℝ) ≤ p / 40 + 1/2 := Nat.floor_le hx0
  have hfl2 : p / 40 + 1/2 < (k0:ℝ) + 1 := Nat.lt_floor_add_one _
  have hup : 40 * (k0:ℝ) ≤ p + 20 := by linarith
  have hlo : p - 20 < 40 * (k0:ℝ) := by linarith
  have hk0pos : 1 ≤ k0 := by
    rcases Nat.eq_zero_or_pos k0 with h0 | h0
    · rw [h0] at hlo
      norm_num at hlo
      linarith
    · exact h0
  have hk0le : k0 ≤ 200 := by
    by_contra hc
    push_neg at hc
    have : (201:ℝ) ≤ (k0:ℝ) := by exact_mod_cast hc
    linarith
  refine ⟨k0, hk0pos, hk0le, ?_⟩
  unfold melFilter
  rw [binFreq_eq]
  rcases le_or_lt (40 * (k0:ℝ)) p with hside | hside
  · rw [if_pos ⟨by linarith, hside⟩]
    rw [le_div_iff (by linarith : (0:ℝ) < p - hzPoint m)]
    linarith
  · rw [if_neg (fun hc => absurd hc.2 (not_le.mpr hside)),
      if_pos ⟨hside, by linarith⟩]
    rw [le_div_iff (by linarith : (0:ℝ) < hzPoint (m+2) - p)]
    linarith

theorem realFFTPower_nonneg (buf : ℕ → ℝ) (n k : ℕ) : 0 ≤ realFFTPower buf n k := by
  unfold realFFTPower
  apply div_nonneg
  · have h1 := mul_self_nonneg (fftRe buf n k)
    have h2 := mul_self_nonneg (fftIm buf n k)
    linarith
  · positivity

/-- Every mel-band filter output of a written impulse-train frame lies
between 1e-7 and 1. -/
theorem cex_melVal_bounds (m t : ℕ) (hm : m < 80) (ht : t ≤ 797) :
    1e-7 ≤ melVal (normalizedPadded cexAudio) m t
    ∧ melVal (normalizedPadded cexAudio) m t < 1 := by
  constructor
  · obtain ⟨k, hk1, hk2, hkf⟩ := band_good_bin m hm
    unfold melVal
    have hterm : ∀ j ∈ Finset.range 201,
        0 ≤ melFilter m j * realFFTPower (frameBuf (normalizedPadded cexAudio) t) 400 j :=
      fun j _ => mul_nonneg (melFilter_nonneg m j) (realFFTPower_nonneg _ _ _)
    have hsingle := Finset.single_le_sum hterm (Finset.mem_range.mpr (by omega : k < 201))
    have hpow := (cex_power_bounds t k ht hk1 hk2).1
    have hub := sqrt5_ub
    have hp2 : (2:ℝ)/63600 ≤ realFFTPower (frameBuf (normalizedPadded cexAudio) t) 400 k :=
      le_trans (by linarith) hpow
    have hmul : (1:ℝ)/300 * (2/63600)
        ≤ melFilter m k * realFFTPower (frameBuf (normalizedPadded cexAudio) t) 400 k :=
      mul_le_mul hkf hp2 (by norm_num) (le_trans (by norm_num) hkf)
    have hnum : (1e-7 : ℝ) ≤ 1/300 * (2/63600) := by norm_num
    linarith
  · unfold melVal
    rw [Finset.sum_range_succ']
    rw [cex_power_zero t ht, mul_zero, add_zero]
    have hb : ∀ i ∈ Finset.range 200,
        melFilter m (i+1) * realFFTPower (frameBuf (normalizedPadded cexAudio) t) 400 (i+1)
          ≤ 1/636 := by
      intro i hi
      have hi200 := Finset.mem_range.mp hi
      have hpow := (cex_power_bounds t (i+1) ht (by omega) (by omega)).2
      have hnn := realFFTPower_nonneg (frameBuf (normalizedPadded cexAudio) t) 400 (i+1)
      calc melFilter m (i+1) * realFFTPower (frameBuf (normalizedPadded cexAudio) t) 400 (i+1)
          ≤ 1 * realFFTPower (frameBuf (normalizedPadded cexAudio) t) 400 (i+1) :=
            mul_le_mul_of_nonneg_right (melFilter_le_one m (i+1)) hnn
        _ = realFFTPower (frameBuf (normalizedPadded cexAudio) t) 400 (i+1) := one_mul _
        _ ≤ 1/636 := hpow
    have hsumle := Finset.sum_le_sum hb
    have hsum : (∑ _i in Finset.range 200, (1/636 : ℝ)) = 200 * (1/636) := by
      rw [Finset.sum_const, Finset.card_range, nsmul_eq_mul]
      norm_num
    rw [hsum] at hsumle
    linarith

/-- The written pre-compression cells of the impulse train lie in [-7, 0). -/
theorem cex_rawEntry_written (m t : ℕ) (hm : m < 80) (ht : t ≤ 797) :
    -7 ≤ melRawEntry (normalizedPadded cexAudio) m t
    ∧ melRawEntry (normalizedPadded cexAudio) m t < 0 := by
  have hv := cex_melVal_bounds m t hm ht
  unfold melRawEntry
  rw [if_pos (by rw [normalizedPadded_length]; omega)]
  rw [max_eq_left (by linarith [hv.1] :
    (1e-10:ℝ) ≤ melVal (normalizedPadded cexAudio) m t)]
  constructor
  · have h7 : Real.logb 10 (1e-7 : ℝ) = -7 := by
      rw [show (1e-7:ℝ) = (10:ℝ) ^ (-7:ℤ) by norm_num, logb_ten_zpow]
      norm_num
    rw [← h7]
    exact Real.logb_le_logb_of_le (by norm_num) (by norm_num) hv.1
  · exact Real.logb_neg (by norm_num) (by linarith [hv.1]) hv.2

/-- The impulse train's pre-compression maximum is exactly the zero of
the never-written columns. -/
theorem cex_melMaxVal : melMaxVal (normalizedPadded cexAudio) = 0 := by
  apply le_antisymm
  · apply melMaxVal_le _ 0 (by norm_num)
    intro m t hm ht
    rcases le_or_lt t 797 with h | h
    · exact le_of_lt (cex_rawEntry_written m t hm h).2
    · exact le_of_eq (melRawEntry_unwritten _ m t
        (by rw [normalizedPadded_length]; omega))
  · exact melMaxVal_nonneg _ (normalizedPadded_length cexAudio)

/-- Written output cells of the impulse train lie in [-3/4, 1). -/
theorem cex_out_written (m t : ℕ) (hm : m < 80) (ht : t ≤ 797) :
    -(3/4) ≤ melOutEntry (normalizedPadded cexAudio) m t
    ∧ melOutEntry (normalizedPadded cexAudio) m t < 1 := by
  have hr := cex_rawEntry_written m t hm ht
  unfold melOutEntry
  rw [cex_melMaxVal]
  rw [max_eq_left (by linarith [hr.1] :
    (0:ℝ) - 8 ≤ melRawEntry (normalizedPadded cexAudio) m t)]
  constructor
  · linarith [hr.1]
  · linarith [hr.2]

/-- Unwritten output cells of the impulse train equal exactly 1. -/
theorem cex_out_unwritten (m t : ℕ) (ht : 798 ≤ t) :
    melOutEntry (normalizedPadded cexAudio) m t = 1 := by
  unfold melOutEntry
  rw [cex_melMaxVal, melRawEntry_unwritten _ m t (by rw [normalizedPadded_length]; omega)]
  rw [max_eq_left (by norm_num : (0:ℝ) - 8 ≤ 0)]
  norm_num

/-! ## C1 -/

/-- C1 counterexample at a concrete input: for the non-empty 128000-sample
impulse train cexAudio (1 at every 160th sample, 0 elsewhere) the feature
extractor's output matrix satisfies max(output) - min(output) <= 7/4, so
the claimed identity max(output) - min(output) == 2.0 is false: the two
final columns are never written by the frame loop, stay 0 = maxVal, and
are compressed to 1, while every written cell lies in [-3/4, 1). -/
theorem c1_counterexample_impulse_range :
    cexAudio ≠ []
    ∧ listMax (computeWhisperMel cexAudio) - listMin (computeWhisperMel cexAudio) ≤ 7/4
    ∧ listMax (computeWhisperMel cexAudio) - listMin (computeWhisperMel cexAudio) ≠ 2 := by
  have hlen := normalizedPadded_length cexAudio
  have hout := computeWhisperMel_eq cexAudio cexAudio_ne_nil
  have hmem : ∀ x ∈ computeWhisperMel cexAudio, -(3/4 : ℝ) ≤ x ∧ x ≤ 1 := by
    intro x hx
    rw [hout, computeWhisperMelFromPadded_eq _ hlen] at hx
    obtain ⟨idx, hidx, rfl⟩ := List.mem_map.mp hx
    have hi := List.mem_range.mp hidx
    rcases le_or_lt (idx % 800) 797 with hcase | hcase
    · have hb := cex_out_written (idx/800) (idx%800) (by omega) hcase
      exact ⟨hb.1, le_of_lt hb.2⟩
    · rw [cex_out_unwritten (idx/800) (idx%800) (by omega)]
      norm_num
  have hhead : (computeWhisperMel cexAudio).headD 0
      = melOutEntry (normalizedPadded cexAudio) 0 0 := by
    rw [hout, computeWhisperMelFromPadded_eq _ hlen, headD_eq_getD,
      getD_map_range 64000 _ 0 (by omega)]
  have hh0 := cex_out_written 0 0 (by omega) (by omega)
  have hmax : listMax (computeWhisperMel cexAudio) ≤ 1 := by
    unfold listMax
    exact foldl_max_le _ _ 1 (by rw [hhead]; exact le_of_lt hh0.2)
      (fun x hx => (hmem x hx).2)
  have hmin : -(3/4 : ℝ) ≤ listMin (computeWhisperMel cexAudio) := by
    unfold listMin
    exact le_foldl_min _ _ _ (by rw [hhead]; exact hh0.1)
      (fun x hx => (hmem x hx).1)
  have hrange : listMax (computeWhisperMel cexAudio)
      - listMin (computeWhisperMel cexAudio) ≤ 7/4 := by linarith
  refine ⟨cexAudio_ne_nil, hrange, fun hc => ?_⟩
  rw [hc] at hrange
  norm_num at hrange

/-- C1 (amended): for every non-empty input the feature extractor's
output values all lie in [(M-4)/4, (M+4)/4] with M the pre-scaling matrix
maximum, hence max(output) - min(output) ≤ 2.0; the range is bounded by 2
but need not equal 2. -/
theorem c1_amended_range_le_two (audio : List ℝ) (h : audio ≠ []) :
    (∀ x ∈ computeWhisperMel audio,
        (melMaxVal (normalizedPadded audio) - 4) / 4 ≤ x
        ∧ x ≤ (melMaxVal (normalizedPadded audio) + 4) / 4)
    ∧ listMax (computeWhisperMel audio) - listMin (computeWhisperMel audio) ≤ 2 := by
  have hlen := normalizedPadded_length audio
  have hout := computeWhisperMel_eq audio h
  have hmem : ∀ x ∈ computeWhisperMel audio,
      (melMaxVal (normalizedPadded audio) - 4) / 4 ≤ x
      ∧ x ≤ (melMaxVal (normalizedPadded audio) + 4) / 4 := by
    intro x hx
    rw [hout, computeWhisperMelFromPadded_eq _ hlen] at hx
    obtain ⟨idx, hidx, rfl⟩ := List.mem_map.mp hx
    have hi := List.mem_range.mp hidx
    exact melOutEntry_bounds _ _ _ (by omega) (by omega)
  refine ⟨hmem, ?_⟩
  have hhead : (computeWhisperMel audio).headD 0
      = melOutEntry (normalizedPadded audio) 0 0 := by
    rw [hout, computeWhisperMelFromPadded_eq _ hlen, headD_eq_getD,
      getD_map_range 64000 _ 0 (by omega)]
  have hh0 := melOutEntry_bounds (normalizedPadded audio) 0 0 (by omega) (by omega)
  have hmax : listMax (computeWhisperMel audio)
      ≤ (melMaxVal (normalizedPadded audio) + 4) / 4 := by
    unfold listMax
    exact foldl_max_le _ _ _ (by rw [hhead]; exact hh0.2)
      (fun x hx => (hmem x hx).2)
  have hmin : (melMaxVal (normalizedPadded audio) - 4) / 4
      ≤ listMin (computeWhisperMel audio) := by
    unfold listMin
    exact le_foldl_min _ _ _ (by rw [hhead]; exact hh0.1)
      (fun x hx => (hmem x hx).1)
  linarith

/-- Witness for the amended C1 at the one-sample input [0]. -/
theorem c1_amended_range_le_two_witness :
    ([(0:ℝ)] ≠ [])
    ∧ listMax (computeWhisperMel [(0:ℝ)]) - listMin (computeWhisperMel [(0:ℝ)]) ≤ 2 :=
  ⟨by simp, (c1_amended_range_le_two [(0:ℝ)] (by simp)).2⟩

end SmartTurn
